import Mathlib

/-!
Verification of the Wikipedia-API repository core:
* the markup filter (`wikipediaapi/natlang.py`, class `HtmlParser`),
* the section tree builder (`wikipediaapi/wikipedia.py`, `Wikipedia._build_structured`),
* the document text reconstructor (`WikipediaPage.text`),
* the lazy attribute-group resolver and the paginated collection fetchers
  (`WikipediaPage.__getattr__`, `WikipediaPage._fetch`, `Wikipedia._links`,
  `Wikipedia._backlinks`, `Wikipedia._categorymembers`, ...).

Python mutable state is embedded as explicit state passing; Python exceptions
(IndexError, KeyError, AttributeError, transport failures) are embedded as an
explicit error-carrying result.  Python `str.strip` is embedded as
`String.trim` (for the inputs appearing below the two agree).
-/

namespace WikipediaApi

/-! ## Markup filter: `natlang.py`, class `HtmlParser`

The HTML tokenizer itself (`html.parser.HTMLParser`) is an external
collaborator; the filter is driven by the stream of handler invocations it
produces.  We embed that stream as a list of events: a start tag (with its
tag name), an end tag (with its tag name, which the handler ignores), or a
data (text) chunk.  Self-closing tags are not used by any claim and are
omitted from the alphabet. -/

inductive HEvent where
  | startTag (tag : String)
  | endTag (tag : String)
  | dataEv (s : String)
deriving DecidableEq, Repr

/-- Python `"".join(parts)`. -/
def joinAll : List String → String
  | [] => ""
  | s :: rest => s ++ joinAll rest

structure FilterState where
  parts : List String
  include_stack : List Bool
deriving DecidableEq, Repr

/-- Python `str.lower()` on tag names (per-character lowering). -/
def pyLower (s : String) : String :=
  String.mk (s.toList.map Char.toLower)

/-- `HtmlParser.__init__`: `self.parts = []`, `self.include_stack = [True]`. -/
def initFilter : FilterState := ⟨[], [true]⟩

/-- `HtmlParser.handle_starttag`.  The list head is the Python list's last
element (top of stack).  `self.include_stack[-1]` on an empty list raises
IndexError, embedded as `none`. -/
def handle_starttag (st : FilterState) (tag : String) : Option FilterState :=
  if pyLower tag = "math" then
    some { st with include_stack := false :: st.include_stack }
  else
    match st.include_stack with
    | [] => none
    | top :: rest => some { st with include_stack := top :: top :: rest }

/-- `HtmlParser.handle_endtag`: `self.include_stack.pop()`; popping an empty
list raises IndexError (`none`).  The tag argument is unused in the source. -/
def handle_endtag (st : FilterState) (_tag : String) : Option FilterState :=
  match st.include_stack with
  | [] => none
  | _ :: rest => some { st with include_stack := rest }

/-- `HtmlParser.handle_data`: appends `data` to `self.parts` when
`self.include_stack[-1]` is true; indexing an empty list raises (`none`). -/
def handle_data (st : FilterState) (data : String) : Option FilterState :=
  match st.include_stack with
  | [] => none
  | top :: _ =>
      some (if top then { st with parts := st.parts ++ [data] } else st)

def feedEvent (st : FilterState) (e : HEvent) : Option FilterState :=
  match e with
  | .startTag tag => handle_starttag st tag
  | .endTag tag => handle_endtag st tag
  | .dataEv s => handle_data st s

/-- Driving the handlers over a whole event stream; the first raised
exception aborts (as `HTMLParser.feed` would propagate it). -/
def feed : FilterState → List HEvent → Option FilterState
  | st, [] => some st
  | st, e :: es =>
      match feedEvent st e with
      | none => none
      | some st2 => feed st2 es

/-- `HtmlParser.get_text`: `"".join(self.parts)`. -/
def get_text (st : FilterState) : String :=
  joinAll st.parts

/-- Number of start-tag events in a stream. -/
def nStarts (evs : List HEvent) : Nat :=
  evs.countP (fun e => match e with | .startTag _ => true | _ => false)

/-- Number of end-tag events in a stream. -/
def nEnds (evs : List HEvent) : Nat :=
  evs.countP (fun e => match e with | .endTag _ => true | _ => false)

/-- A stream is prefix-balanced when no prefix closes more regions than it
has opened (bounding the index keeps the predicate decidable; `take`
stabilizes past the length). -/
def PrefixBalanced (evs : List HEvent) : Prop :=
  ∀ n, n ≤ evs.length → nEnds (evs.take n) ≤ nStarts (evs.take n)

instance (evs : List HEvent) : Decidable (PrefixBalanced evs) :=
  inferInstanceAs (Decidable (∀ n, n ≤ evs.length → _))

/-! ## Section tree builder: `wikipedia.py`, `Wikipedia._build_structured`

The heading matcher (`re.finditer` with the format's pattern) is an external
collaborator (spec section 4.2); the builder consumes its output, embedded as a
list of matches, each carrying `match.start()`, `match.end()`, the extracted
raw title (`extract_title(match)`) and the extracted level
(`extract_level(match)`, e.g. the number of `=` signs or the `<h·>` digit).

Python object mutation is embedded with an arena: the section created at the
i-th match is arena node `i`; children lists hold arena indices; the stack
holds `Option Nat` entries where `none` is the bottom sentinel `page`.
The Lean list head is the Python list's last element. -/

structure HeadingMatch where
  mstart : Nat
  mend : Nat
  title : String
  level : Nat
deriving DecidableEq, Repr

structure SecNode where
  title : String
  level : Int
  text : String
  sections : List Nat
deriving DecidableEq, Repr, Inhabited

/-- Python slice `s[a:b]` for natural bounds. -/
def pySlice (s : String) (a b : Nat) : String :=
  String.mk ((s.toList.drop a).take (b - a))

/-- Python slice `s[a:]`. -/
def pySliceFrom (s : String) (a : Nat) : String :=
  String.mk (s.toList.drop a)

/-- Python `str.strip()`: drop whitespace from both ends (the whitespace
classes of `Char.isWhitespace` suffice for the inputs here). -/
def pyStrip (s : String) : String :=
  String.mk (((s.toList.dropWhile Char.isWhitespace).reverse.dropWhile Char.isWhitespace).reverse)

/-- In-place update of one arena node (Python attribute assignment on the
object held at index `i`). -/
def updateAt (l : List SecNode) (i : Nat) (f : SecNode → SecNode) : List SecNode :=
  match l, i with
  | [], _ => []
  | x :: xs, 0 => f x :: xs
  | x :: xs, n + 1 => x :: updateAt xs n f

/-- Pop `n` entries off a stack; popping an empty list raises IndexError
(`none`), as Python's `list.pop` does. -/
def popNExact : List (Option Nat) → Nat → Option (List (Option Nat))
  | l, 0 => some l
  | [], _ + 1 => none
  | _ :: rest, n + 1 => popNExact rest n

/-- Builder state: `page._summary`, the node arena, `page._sections`
(indices), the open-section stack (head = Python list's last element,
`none` = the `page` bottom sentinel), `prev_pos`, the `section` loop
variable, and `page._section_titles`. -/
structure BuildState where
  summary : String
  arena : List SecNode
  pageChildren : List Nat
  stack : List (Option Nat)
  prevPos : Nat
  lastSec : Option Nat
  sectionTitles : List String
deriving DecidableEq, Repr

def initBuild (summary0 : String) : BuildState :=
  { summary := summary0, arena := [], pageChildren := [],
    stack := [none], prevPos := 0, lastSec := none, sectionTitles := [] }

/-- `Wikipedia._create_section`: title is cleaned, stored level is
`sec_level - 1` (a Python `int`, hence `Int` here). -/
def _create_section (cleanup : String → String) (m : HeadingMatch) : SecNode :=
  { title := cleanup m.title, level := (m.level : Int) - 1,
    text := "", sections := [] }

/-- The three-way stack reconciliation of `_build_structured`
(`sec_level = section.level + 1`, i.e. the raw extracted level):
```
if sec_level > len(section_stack): push
elif sec_level == len(section_stack): pop; push
else: pop (len(section_stack) - sec_level + 1) times; push
```
A pop on an empty stack raises IndexError (`none`). -/
def reconcileStack (stack : List (Option Nat)) (idx : Nat) (secLevel : Nat) :
    Option (List (Option Nat)) :=
  if secLevel > stack.length then
    some (some idx :: stack)
  else if secLevel = stack.length then
    match stack with
    | [] => none
    | _ :: rest => some (some idx :: rest)
  else
    match popNExact stack (stack.length - secLevel + 1) with
    | none => none
    | some rest => some (some idx :: rest)

/-- `section_stack[len(section_stack) - 2]._sections.append(section)`:
append the new node index to the children of the second-from-top stack
entry.  When the stack has a single element, Python's index `-1` wraps
around and the node is appended to its own children list. -/
def appendChild (st : BuildState) (idx : Nat) : BuildState :=
  match st.stack with
  | _ :: some j :: _ =>
      { st with arena := updateAt st.arena j (fun n => { n with sections := n.sections ++ [idx] }) }
  | _ :: none :: _ => { st with pageChildren := st.pageChildren ++ [idx] }
  | [some j] =>
      { st with arena := updateAt st.arena j (fun n => { n with sections := n.sections ++ [idx] }) }
  | [none] => { st with pageChildren := st.pageChildren ++ [idx] }
  | [] => st

/-- One iteration of the `for match in re.finditer(...)` loop body. -/
def processMatch (cleanup : String → String) (body : String)
    (st : BuildState) (m : HeadingMatch) : Option BuildState :=
  -- summary / previous-section text assignment
  let st1 :=
    if st.summary = "" then
      { st with summary := cleanup (pySlice body 0 m.mstart) }
    else
      match st.lastSec with
      | some i =>
          let secText := cleanup (pySlice body st.prevPos m.mstart)
          { st with arena := updateAt st.arena i (fun n => { n with text := secText }) }
      | none => st
  -- section = self._create_section(match); sec_level = section.level + 1
  let idx := st1.arena.length
  let node := _create_section cleanup m
  let st2 := { st1 with arena := st1.arena ++ [node] }
  match reconcileStack st2.stack idx m.level with
  | none => none
  | some stack2 =>
      let st3 := appendChild { st2 with stack := stack2 } idx
      some { st3 with
        prevPos := m.mend,
        lastSec := some idx,
        sectionTitles := st3.sectionTitles ++ [node.title] }

def buildLoop (cleanup : String → String) (body : String) :
    BuildState → List HeadingMatch → Option BuildState
  | st, [] => some st
  | st, m :: ms =>
      match processMatch cleanup body st m with
      | none => none
      | some st2 => buildLoop cleanup body st2 ms

/-- `Wikipedia._build_structured` on a page whose summary currently is
`summary0` (a fresh page has `summary0 = ""`): run the match loop, then
`if prev_pos > 0: section._text = self.cleanup(extract['extract'][prev_pos:])`. -/
def build_structured (cleanup : String → String) (summary0 : String)
    (body : String) (ms : List HeadingMatch) : Option BuildState :=
  match buildLoop cleanup body (initBuild summary0) ms with
  | none => none
  | some st =>
      if st.prevPos > 0 then
        match st.lastSec with
        | some i =>
            let tailText := cleanup (pySliceFrom body st.prevPos)
            some { st with arena := updateAt st.arena i (fun n => { n with text := tailText }) }
        | none => none
      else
        some st

/-- The summary / previous-section text assignment at the top of a loop
iteration of `_build_structured`.  This is the part of the iteration that
has already mutated the page when one of the `section_stack.pop()` calls
later in the same iteration raises IndexError: at that point the freshly
created section is still bound only to the local `section` variable and is
reachable from the page through nothing, so it is not part of the
page-visible state. -/
def assignSpanText (cleanup : String → String) (body : String)
    (st : BuildState) (m : HeadingMatch) : BuildState :=
  if st.summary = "" then
    { st with summary := cleanup (pySlice body 0 m.mstart) }
  else
    match st.lastSec with
    | some i =>
        let secText := cleanup (pySlice body st.prevPos m.mstart)
        { st with arena := updateAt st.arena i (fun n => { n with text := secText }) }
    | none => st

/-- The match loop with the state at a raise made explicit: `.inl` is
normal completion, `.inr` carries the page-visible state at the point the
stack pops raise, i.e. after the failing iteration's text assignment
(`assignSpanText`) but before the new section is attached anywhere. -/
def buildLoopErr (cleanup : String → String) (body : String) :
    BuildState → List HeadingMatch → BuildState ⊕ BuildState
  | st, [] => .inl st
  | st, m :: ms =>
      match processMatch cleanup body st m with
      | none => .inr (assignSpanText cleanup body st m)
      | some st2 => buildLoopErr cleanup body st2 ms

/-- `Wikipedia._build_structured` with the exception path kept: on a raise
inside the match loop the `.inr` state records the mutations the page has
received up to that point, since the exception propagates with the page in
that partially updated state; the `prev_pos > 0` tail assignment with no
section would raise before mutating anything further. -/
def build_structuredErr (cleanup : String → String) (summary0 : String)
    (body : String) (ms : List HeadingMatch) : BuildState ⊕ BuildState :=
  match buildLoopErr cleanup body (initBuild summary0) ms with
  | .inr st => .inr st
  | .inl st =>
      if st.prevPos > 0 then
        match st.lastSec with
        | some i =>
            let tailText := cleanup (pySliceFrom body st.prevPos)
            .inl { st with arena := updateAt st.arena i (fun n => { n with text := tailText }) }
        | none => .inr st
      else
        .inl st

/-! ## Document text reconstructor: `WikipediaPage.text`

`text` walks the already-built `WikipediaPageSection` tree, so here the tree
is a plain inductive.  `combine_sections` is the per-format decoration chosen
in `Wikipedia.__init__`: the identity for WIKI and NATLANG, an `<h·>` wrapper
for HTML. -/

inductive SecT where
  | node (title : String) (text : String) (sections : List SecT)

def SecT.title : SecT → String
  | .node t _ _ => t

def SecT.text : SecT → String
  | .node _ x _ => x

def SecT.sections : SecT → List SecT
  | .node _ _ s => s

/-- `self.combine_sections = lambda title, level: title` (WIKI, NATLANG). -/
def combine_sections_plain : String → Nat → String := fun title _ => title

/-- `lambda title, level: "<h{}>{}</h{}>".format(level, title, level)` (HTML). -/
def combine_sections_html : String → Nat → String := fun title level =>
  "<h" ++ toString level ++ ">" ++ title ++ "</h" ++ toString level ++ ">"

mutual

/-- Body of the `for sec in sections` loop inside `WikipediaPage.text`:
decoration, newline, the section's own text, a blank-line separator when the
text is non-empty, then the recursion into the children. -/
def combineOne (cs : String → Nat → String) : SecT → Nat → String
  | .node t x subs, level =>
      cs t level ++ "\n" ++ x ++ (if x.length > 0 then "\n\n" else "")
        ++ combineList cs subs (level + 1)

/-- The local `combine(sections, level)` of `WikipediaPage.text`. -/
def combineList (cs : String → Nat → String) : List SecT → Nat → String
  | [], _ => ""
  | s :: rest, level => combineOne cs s level ++ combineList cs rest level

end

/-- `WikipediaPage.text` as a function of the cached summary and section
tree: `txt = self.summary`, a `"\n\n"` appended when it is non-empty, then
`combine(self.sections, 2)`, and finally `txt.strip()`. -/
def pageText (cs : String → Nat → String) (summary : String)
    (sections : List SecT) : String :=
  let txt := summary
  let txt := if txt.length > 0 then txt ++ "\n\n" else txt
  pyStrip (txt ++ combineList cs sections 2)

/-- The serialization described by the claim's words (for comparison with
the code): the summary is *trimmed* before the blank line is appended. -/
def claimPageText (cs : String → Nat → String) (summary : String)
    (sections : List SecT) : String :=
  let s := pyStrip summary
  let txt := if s.length > 0 then s ++ "\n\n" else s
  pyStrip (txt ++ combineList cs sections 2)

mutual

/-- Spec-side pre-order block list: one emitted block per section node,
depth-first, children before the next sibling. -/
def preorderBlocksOne (cs : String → Nat → String) : SecT → Nat → List String
  | .node t x subs, level =>
      (cs t level ++ "\n" ++ x ++ (if x.length > 0 then "\n\n" else ""))
        :: preorderBlocksList cs subs (level + 1)

def preorderBlocksList (cs : String → Nat → String) : List SecT → Nat → List String
  | [], _ => []
  | s :: rest, level => preorderBlocksOne cs s level ++ preorderBlocksList cs rest level

end

/-! ## Lazy attribute-group resolver, pagination, non-existence

`WikipediaPage.__getattr__`, `WikipediaPage._fetch`, the `Wikipedia._<group>`
fetchers and the pagination loops of `_links`, `_backlinks` and
`_categorymembers`.

The remote transport (`Wikipedia._query` / `requests.get`) is an external
collaborator; it is embedded as the finite list of responses it will hand
back, in order.  A `none` entry is a transport failure (the request raises);
an exhausted list also raises.  The response document shape follows spec
section 6: the page-object fields (`title`, `pageid`, `ns`, ...), the
`extract` string, the group's item titles, a continuation-token flag, and
`missing` for the page key `-1`. -/

inductive Group where
  | structured | info | langlinks | links | backlinks | categories | categorymembers
deriving DecidableEq, Repr

inductive AttrVal where
  | int (i : Int)
  | str (s : String)
deriving DecidableEq, Repr

structure ApiResponse where
  missing : Bool
  fields : List (String × AttrVal)
  extract : String
  items : List String
  hasContinue : Bool
deriving DecidableEq, Repr

/-- Python `dict` lookup on an insertion-ordered association list. -/
def lookupA : List (String × AttrVal) → String → Option AttrVal
  | [], _ => none
  | (k, v) :: rest, n => if k = n then some v else lookupA rest n

/-- Python `dict` assignment: overwrite in place, else append. -/
def setA : List (String × AttrVal) → String → AttrVal → List (String × AttrVal)
  | [], n, v => [(n, v)]
  | (k, w) :: rest, n, v =>
      if k = n then (n, v) :: rest else (k, w) :: setA rest n v

/-- Keys of a Python `dict` keyed by title: inserting an existing key keeps
its position (only the value is replaced), a new key is appended. -/
def dictInsertKey (ks : List String) (k : String) : List String :=
  if k ∈ ks then ks else ks ++ [k]

/-- `Wikipedia._common_attributes`: copy each of `title`, `pageid`, `ns`,
`redirects` into `page._attributes` when the extract carries it. -/
def common_attributes (fields attrs : List (String × AttrVal)) :
    List (String × AttrVal) :=
  ["title", "pageid", "ns", "redirects"].foldl
    (fun acc a =>
      match lookupA fields a with
      | some v => setA acc a v
      | none => acc)
    attrs

/-- The per-page state: `_attributes`, the structured-extract caches, the
title-keyed collections (their key lists, in Python-dict insertion order)
and `_called`. -/
structure PageModel where
  attrs : List (String × AttrVal)
  summary : String
  arena : List SecNode
  pageChildren : List Nat
  sectionTitles : List String
  links : List String
  backlinks : List String
  categories : List String
  categorymembers : List String
  langlinks : List String
  called : Group → Bool

/-- `WikipediaPage.__init__` with `url=None`. -/
def initPage (title : String) (ns : Int) (language : String) : PageModel :=
  { attrs := [("title", .str title), ("ns", .int ns), ("language", .str language)],
    summary := "", arena := [], pageChildren := [], sectionTitles := [],
    links := [], backlinks := [], categories := [], categorymembers := [],
    langlinks := [], called := fun _ => false }

/-- The world: the page, the transport's pending responses, the log of
group fetches performed so far, and the format configuration chosen in
`Wikipedia.__init__` (the cleanup function and the external heading
matcher, spec sections 4.2 and 6). -/
structure World where
  page : PageModel
  transport : List (Option ApiResponse)
  groupLog : List Group
  cleanup : String → String
  matcher : String → List HeadingMatch

/-- Result of a fetch: normal return or a propagating Python exception, in
both cases carrying the state at that point. -/
inductive FR where
  | ok (w : World)
  | exn (w : World)

def FR.world : FR → World
  | .ok w => w
  | .exn w => w

def FR.isOk : FR → Bool
  | .ok _ => true
  | .exn _ => false

/-- One `Wikipedia._query` call: take the next planned response. -/
def runQuery (w : World) : Option ApiResponse × World :=
  match w.transport with
  | [] => (none, w)
  | r :: rest => (r, { w with transport := rest })

def setPageAttr (w : World) (name : String) (v : AttrVal) : World :=
  { w with page := { w.page with attrs := setA w.page.attrs name v } }

/-- The `while 'continue' in raw` pagination loop shared by `_links`,
`_backlinks` and `_categorymembers`: while the previous response carried a
continuation token, issue the follow-up request and append its items to the
accumulated collection (`v[...] += ...`); a transport failure raises. -/
def continuationLoop : List String → List (Option ApiResponse) → Bool →
    Option (List String) × List (Option ApiResponse)
  | acc, t, false => (some acc, t)
  | _, [], true => (none, [])
  | _, none :: t, true => (none, t)
  | acc, some r :: t, true => continuationLoop (acc ++ r.items) t r.hasContinue

/-- `Wikipedia._structured`.  The `_common_attributes(raw['query'], page)`
call operates on the top-level query object, which carries none of the four
common keys, so it leaves the page unchanged and is not repeated here.  The
page key `-1` sets only `pageid := -1`.  Otherwise `_build_structured`
first copies the common attributes from the extract onto the page and then
runs the match loop; when the loop raises mid-build, the exception
propagates with the page holding the copied attributes and the partial
summary / section state mutated before the raise. -/
def impl_structured (w : World) : FR :=
  match runQuery w with
  | (none, w1) => .exn w1
  | (some r, w1) =>
      if r.missing then .ok (setPageAttr w1 "pageid" (.int (-1)))
      else
        let attrs1 := common_attributes r.fields w1.page.attrs
        match build_structuredErr w1.cleanup w1.page.summary r.extract (w1.matcher r.extract) with
        | .inl bs =>
            .ok { w1 with page :=
              { w1.page with
                attrs := attrs1,
                summary := bs.summary,
                arena := bs.arena,
                pageChildren := bs.pageChildren,
                sectionTitles := bs.sectionTitles } }
        | .inr bs =>
            .exn { w1 with page :=
              { w1.page with
                attrs := attrs1,
                summary := bs.summary,
                arena := bs.arena,
                pageChildren := bs.pageChildren,
                sectionTitles := bs.sectionTitles } }

/-- `Wikipedia._info`: on the `-1` page key only `pageid := -1`; otherwise
`_build_info` copies the common attributes and then every extract item into
`page._attributes`. -/
def impl_info (w : World) : FR :=
  match runQuery w with
  | (none, w1) => .exn w1
  | (some r, w1) =>
      if r.missing then .ok (setPageAttr w1 "pageid" (.int (-1)))
      else
        let newAttrs :=
          r.fields.foldl (fun acc kv => setA acc kv.1 kv.2)
            (common_attributes r.fields w1.page.attrs)
        .ok { w1 with page := { w1.page with attrs := newAttrs } }

/-- `Wikipedia._langlinks`: no pagination; on `-1` only `pageid := -1`;
otherwise `_build_langlinks` stores one reference page per item. -/
def impl_langlinks (w : World) : FR :=
  match runQuery w with
  | (none, w1) => .exn w1
  | (some r, w1) =>
      if r.missing then .ok (setPageAttr w1 "pageid" (.int (-1)))
      else
        .ok { w1 with page :=
          { w1.page with
            attrs := common_attributes r.fields w1.page.attrs,
            langlinks := r.items.foldl dictInsertKey w1.page.langlinks } }

/-- `Wikipedia._categories`: same shape as `_langlinks`. -/
def impl_categories (w : World) : FR :=
  match runQuery w with
  | (none, w1) => .exn w1
  | (some r, w1) =>
      if r.missing then .ok (setPageAttr w1 "pageid" (.int (-1)))
      else
        .ok { w1 with page :=
          { w1.page with
            attrs := common_attributes r.fields w1.page.attrs,
            categories := r.items.foldl dictInsertKey w1.page.categories } }

/-- `Wikipedia._links`: the initial request, the `-1` check, the
continuation loop accumulating into the local `v['links']`, then
`_build_links` committing the whole accumulated collection to
`page._links`. -/
def impl_links (w : World) : FR :=
  match runQuery w with
  | (none, w1) => .exn w1
  | (some r, w1) =>
      if r.missing then .ok (setPageAttr w1 "pageid" (.int (-1)))
      else
        match continuationLoop r.items w1.transport r.hasContinue with
        | (none, t1) => .exn { w1 with transport := t1 }
        | (some acc, t1) =>
            .ok { w1 with
              transport := t1,
              page :=
                { w1.page with
                  attrs := common_attributes r.fields w1.page.attrs,
                  links := acc.foldl dictInsertKey w1.page.links } }

/-- `Wikipedia._backlinks`: no `-1` check (the response is a flat list under
`raw['query']`, which carries no common attribute keys), the continuation
loop, then `_build_backlinks` committing to `page._backlinks`. -/
def impl_backlinks (w : World) : FR :=
  match runQuery w with
  | (none, w1) => .exn w1
  | (some r, w1) =>
      match continuationLoop r.items w1.transport r.hasContinue with
      | (none, t1) => .exn { w1 with transport := t1 }
      | (some acc, t1) =>
          .ok { w1 with
            transport := t1,
            page := { w1.page with backlinks := acc.foldl dictInsertKey w1.page.backlinks } }

/-- `Wikipedia._categorymembers`: same shape as `_backlinks`. -/
def impl_categorymembers (w : World) : FR :=
  match runQuery w with
  | (none, w1) => .exn w1
  | (some r, w1) =>
      match continuationLoop r.items w1.transport r.hasContinue with
      | (none, t1) => .exn { w1 with transport := t1 }
      | (some acc, t1) =>
          .ok { w1 with
            transport := t1,
            page := { w1.page with categorymembers := acc.foldl dictInsertKey w1.page.categorymembers } }

/-- `getattr(self.wiki, '_' + call)(self)`. -/
def groupImpl : Group → World → FR
  | .structured, w => impl_structured w
  | .info, w => impl_info w
  | .langlinks, w => impl_langlinks w
  | .links, w => impl_links w
  | .backlinks, w => impl_backlinks w
  | .categories, w => impl_categories w
  | .categorymembers, w => impl_categorymembers w

def setCalled (p : PageModel) (g : Group) : PageModel :=
  { p with called := fun g2 => if g2 = g then true else p.called g2 }

/-- `WikipediaPage._fetch`: invoke the group's fetcher (recorded in the
group log), and set `self._called[call] = True` only when it returns
normally; an exception propagates before the flag assignment runs. -/
def fetchGroup (w : World) (g : Group) : FR :=
  let w1 := { w with groupLog := w.groupLog ++ [g] }
  match groupImpl g w1 with
  | .ok w2 => .ok { w2 with page := setCalled w2.page g }
  | .exn w2 => .exn w2

/-- `WikipediaPage.ATTRIBUTES_MAPPING`. -/
def ATTRIBUTES_MAPPING : List (String × List Group) :=
  [("language", []),
   ("pageid", [.info, .structured, .langlinks]),
   ("ns", [.info, .structured, .langlinks]),
   ("title", [.info, .structured, .langlinks]),
   ("contentmodel", [.info]),
   ("pagelanguage", [.info]),
   ("pagelanguagehtmlcode", [.info]),
   ("pagelanguagedir", [.info]),
   ("touched", [.info]),
   ("lastrevid", [.info]),
   ("length", [.info]),
   ("protection", [.info]),
   ("restrictiontypes", [.info]),
   ("watchers", [.info]),
   ("visitingwatchers", [.info]),
   ("notificationtimestamp", [.info]),
   ("talkid", [.info]),
   ("fullurl", [.info]),
   ("editurl", [.info]),
   ("canonicalurl", [.info]),
   ("readable", [.info]),
   ("preload", [.info]),
   ("displaytitle", [.info])]

def mappingLookup : List (String × List Group) → String → Option (List Group)
  | [], _ => none
  | (k, gs) :: rest, n => if k = n then some gs else mappingLookup rest n

/-- The `for call in self.ATTRIBUTES_MAPPING[name]` loop of `__getattr__`:
skip already-resolved groups, fetch the first unresolved one, then
`return self._attributes[name]` — a KeyError (exception) when the fetch did
not produce the attribute.  A completed loop falls through (`return None`). -/
def readMappedAttr (w : World) (name : String) : List Group → FR
  | [] => .ok w
  | g :: gs =>
      if w.page.called g then readMappedAttr w name gs
      else
        match fetchGroup w g with
        | .ok w2 =>
            if (lookupA w2.page.attrs name).isSome then .ok w2 else .exn w2
        | .exn w2 => .exn w2

/-- A single attribute read: either a dynamic attribute going through
`__getattr__` or a property (`summary`, `sections`, `links`, ...) whose
body is `if not self._called[g]: self._fetch(g)`. -/
inductive ReadOp where
  | attr (name : String)
  | prop (g : Group)

/-- One read.  `__getattr__`: unknown names fall back to
`__getattribute__`, which raises AttributeError; a cached name returns the
cached value with no effect; otherwise the group loop runs. -/
def step (w : World) : ReadOp → FR
  | .attr name =>
      match mappingLookup ATTRIBUTES_MAPPING name with
      | none => .exn w
      | some gs =>
          if (lookupA w.page.attrs name).isSome then .ok w
          else readMappedAttr w name gs
  | .prop g =>
      if w.page.called g then .ok w else fetchGroup w g

/-- A sequence of attribute reads; the first uncaught exception stops the
sequence. -/
def run (w : World) : List ReadOp → FR
  | [] => .ok w
  | op :: ops =>
      match step w op with
      | .ok w2 => run w2 ops
      | .exn w2 => .exn w2

/-- `WikipediaPage.exists`: `self.pageid != -1`, where `self.pageid` goes
through `__getattr__` (and may itself fetch). -/
def pageExists (w : World) : Option Bool :=
  match step w (.attr "pageid") with
  | .ok w2 =>
      match lookupA w2.page.attrs "pageid" with
      | some (.int i) => some (decide (i ≠ -1))
      | _ => none
  | .exn _ => none

/-- The cached data a call group populates on the page (its collection, and
for the structured group the summary, title list and section arena). -/
def groupCache (p : PageModel) : Group → List String × List SecNode
  | .structured => (p.summary :: p.sectionTitles, p.arena)
  | .info => ([], [])
  | .langlinks => (p.langlinks, [])
  | .links => (p.links, [])
  | .backlinks => (p.backlinks, [])
  | .categories => (p.categories, [])
  | .categorymembers => (p.categorymembers, [])

/-- The group log lists exactly the resolved groups, each once: the state
invariant of a page on which groups have only ever been invoked through
`__getattr__` / the properties (it holds of a fresh page). -/
def LogInv (w : World) : Prop :=
  (∀ g, g ∈ w.groupLog ↔ w.page.called g = true) ∧ w.groupLog.Nodup

/-- Resolution-state monotonicity between two worlds. -/
def CalledMono (w w2 : World) : Prop :=
  ∀ g, w.page.called g = true → w2.page.called g = true

/-! ## Fixtures -/

/-- The body of the repository's 12-section fixture, in offset-normalized
form: the summary text, then for each section a 3-character heading marker
followed by its 2-character text. -/
def fixtureBody : String :=
  "Sum." ++ "AAAt1AAAt2AAAt3AAAt4AAAt5AAAt6AAAt7AAAt8AAAt9AAAuaAAAubAAAuc"

/-- The fixture's section titles, nested 1, 1.1, 1.2, 2, 3, 4, 4.1, 4.2,
4.2.1, 4.2.2, 5, 5.1. -/
def fixtureTitles : List String :=
  ["Section 1", "Section 1.1", "Section 1.2", "Section 2", "Section 3",
   "Section 4", "Section 4.1", "Section 4.2", "Section 4.2.1",
   "Section 4.2.2", "Section 5", "Section 5.1"]

/-- The raw heading levels of the fixture (h2/h3/h4 headings, as in the
repository's mock data). -/
def fixtureLevels : List Nat := [2, 3, 3, 2, 2, 2, 3, 3, 4, 4, 2, 3]

/-- The heading matcher's output on `fixtureBody`: the i-th marker occupies
offsets `[4+5i, 7+5i)`. -/
def fixtureMatches : List HeadingMatch :=
  (List.range 12).map (fun i =>
    { mstart := 4 + 5 * i, mend := 7 + 5 * i,
      title := fixtureTitles.getD i "", level := fixtureLevels.getD i 0 })

/-- The builder's output on the fixture. -/
def fixtureBuilt : BuildState :=
  (build_structured pyStrip "" fixtureBody fixtureMatches).getD (initBuild "")

/-- A two-heading body whose pre-heading text is non-empty: summary `"Su."`,
heading markers at `[3,6)` and `[8,11)`, section texts `"t1"` and `"t2"`. -/
def c2Body : String := "Su.AAAt1AAAt2"

def c2Matches : List HeadingMatch :=
  [⟨3, 6, "A", 2⟩, ⟨8, 11, "B", 2⟩]

def c2Built : BuildState :=
  (build_structured pyStrip "" c2Body c2Matches).getD (initBuild "")

/-- A fresh world: fresh page, no planned responses, WIKI-style cleanup, a
trivial external matcher. -/
def freshWorld : World :=
  { page := initPage "Test_1" 0 "en", transport := [],
    groupLog := [], cleanup := pyStrip, matcher := fun _ => [] }

/-- A response reporting the page key `-1` (title does not exist). -/
def missingResp : ApiResponse :=
  { missing := true, fields := [], extract := "", items := [], hasContinue := false }

/-- A plain successful empty response. -/
def emptyResp : ApiResponse :=
  { missing := false, fields := [], extract := "", items := [], hasContinue := false }

/-- First pagination page: two items and a continuation token. -/
def linksResp1 : ApiResponse :=
  { missing := false, fields := [], extract := "", items := ["L1", "L2"], hasContinue := true }

/-- Second pagination page: one item, no token. -/
def linksResp2 : ApiResponse :=
  { missing := false, fields := [], extract := "", items := ["L3"], hasContinue := false }

/-- World whose transport reports `-1` first, then an empty success. -/
def c5World : World :=
  { freshWorld with transport := [some missingResp, some emptyResp] }

/-- World whose transport paginates: a continuation token on the first
response, none on the second. -/
def c4World : World :=
  { freshWorld with transport := [some linksResp1, some linksResp2] }

/-- The state carried by the exception a links fetch raises on an empty
transport. -/
def c10Exn : World := (fetchGroup freshWorld Group.links).world

/-! # Theorems -/

/-! ## Shared helper lemmas -/

theorem popNExact_eq_drop : ∀ (l : List (Option Nat)) (n : Nat), n ≤ l.length →
    popNExact l n = some (l.drop n) := by
  intro l
  induction l with
  | nil =>
      intro n h
      cases n with
      | zero => rfl
      | succ m => exact absurd h (by simp)
  | cons x xs ih =>
      intro n h
      cases n with
      | zero => rfl
      | succ m => exact ih m (by simpa using h)

/-! ## C1: stack reconciliation on depth decreases, and the 12-section fixture -/

/-- C1 (counterexample): the claim quantifies over every heading-match
sequence and asserts that a heading whose depth `d` is smaller than the
current stack length ends up a child of the element remaining on top after
popping.  For a depth-0 heading (raw level 1, legal for the HTML pattern
`<h1>`) arriving while the stack holds the page and one open section, the
code pops the page sentinel itself and then appends the new section (arena
index 1) to `section_stack[-1]` — the new section itself: the page's
children stay `[0]` and node 1 lists itself as its own child, so the new
section is a child of no remaining stack element. -/
theorem C1_counterexample :
    (build_structured pyStrip "" "AAABBBccc"
        [{ mstart := 0, mend := 3, title := "A", level := 2 },
         { mstart := 3, mend := 6, title := "B", level := 1 }]).map
      (fun st => (st.pageChildren, st.arena.map SecNode.sections))
      = some ([0], [[], [1]]) := by decide

/-- C1 (amended): for a heading whose 0-based depth `d` satisfies
`1 ≤ d < stack length` (raw level `d + 1`), the reconciliation pops entries
until the stack length equals `d` and pushes the new section onto what
remains, for arbitrary jump size; and the repository's 12-section fixture
builds to `section_titles` equal to exactly that ordered 12-element list,
with the five top-level sections as the page's direct children. -/
theorem C1_stack_reconciliation :
    (∀ (stack : List (Option Nat)) (idx d : Nat), 1 ≤ d → d < stack.length →
        reconcileStack stack idx (d + 1) = some (some idx :: stack.drop (stack.length - d))
        ∧ (stack.drop (stack.length - d)).length = d)
    ∧ build_structured pyStrip "" fixtureBody fixtureMatches = some fixtureBuilt
    ∧ fixtureBuilt.sectionTitles = fixtureTitles
    ∧ fixtureBuilt.pageChildren.map (fun i => (fixtureBuilt.arena.getD i default).title)
        = ["Section 1", "Section 2", "Section 3", "Section 4", "Section 5"] := by
  refine ⟨?_, by decide, by decide, by decide⟩
  intro stack idx d h1 h2
  have hlen : (stack.drop (stack.length - d)).length = d := by
    simp [List.length_drop]
    omega
  refine ⟨?_, hlen⟩
  unfold reconcileStack
  rcases Nat.lt_or_ge (d + 1) stack.length with hlt | hge
  · have hne : ¬ (d + 1 > stack.length) := by omega
    have hne2 : ¬ (d + 1 = stack.length) := by omega
    rw [if_neg hne, if_neg hne2]
    have harith : stack.length - (d + 1) + 1 = stack.length - d := by omega
    rw [harith, popNExact_eq_drop stack (stack.length - d) (by omega)]
  · have heq : d + 1 = stack.length := by omega
    have hne : ¬ (d + 1 > stack.length) := by omega
    rw [if_neg hne, if_pos heq]
    cases stack with
    | nil => simp at h2
    | cons x rest =>
        simp only [List.length_cons] at heq
        have hd : rest.length + 1 - d = 1 := by omega
        simp only [List.length_cons, hd, List.drop_succ_cons, List.drop_zero]

/-- C1 (witness): the amended reconciliation rule applied at a concrete
stack `[some 0, none]` with a depth-1 heading. -/
theorem C1_witness :
    reconcileStack [some 0, none] 1 2 = some [some 1, none] := by
  have h := C1_stack_reconciliation.1 [some 0, none] 1 1 (by decide) (by decide)
  simpa using h.1

/-! ## C2: summary assignment -/

/-- C2 (counterexample): with the WIKI cleanup (`str.strip`) and a body
whose first heading starts at offset 0, the first loop iteration assigns
`cleanup(body[0:0]) = ""` to the summary; the guard `page._summary == ''`
then re-fires at the second match, so the summary is re-assigned to
`cleanup(body[0:10]) = "==A==text1"` — not the text up to the first match's
start — and the text between the two matches is absorbed into the summary
while the first section's text stays `""`. -/
theorem C2_counterexample :
    (build_structured pyStrip "" "==A==text1==B==text2"
        [{ mstart := 0, mend := 5, title := "A", level := 2 },
         { mstart := 10, mend := 15, title := "B", level := 2 }]).map
      (fun st => (st.summary, st.arena.map SecNode.text))
      = some ("==A==text1", ["", "text2"])
    ∧ pyStrip (pySlice "==A==text1==B==text2" 0 0) = "" := by
  exact ⟨by decide, by decide⟩

/-! ## C6: section depths -/

/-- C6 (counterexample): a single level-2 heading (as every section of the
repository's fixture is h2-based) produces a top-level section of depth 1,
not 0. -/
theorem C6_counterexample :
    (build_structured pyStrip "" "AA"
        [{ mstart := 0, mend := 2, title := "A", level := 2 }]).map
      (fun st => (st.pageChildren, st.arena.map SecNode.level))
      = some ([0], [1]) ∧ (1 : Int) ≠ 0 := by
  exact ⟨by decide, by decide⟩

/-- C6 (amended): in the section tree built from the repository's
12-section fixture, each section's depth is exactly one more than its
parent's depth, and every top-level section (a direct child of the page)
has depth 1 — the raw heading level minus one — not 0. -/
theorem C6_depths :
    build_structured pyStrip "" fixtureBody fixtureMatches = some fixtureBuilt
    ∧ (∀ j, j < fixtureBuilt.arena.length →
        ∀ i ∈ (fixtureBuilt.arena.getD j default).sections,
          (fixtureBuilt.arena.getD i default).level
            = (fixtureBuilt.arena.getD j default).level + 1)
    ∧ (∀ i ∈ fixtureBuilt.pageChildren, (fixtureBuilt.arena.getD i default).level = 1) := by
  refine ⟨by decide, by decide, by decide⟩

/-! ## C7: document text reconstruction -/

/-- C7 (counterexample): `text` does not trim the stored summary.  With the
NATLANG cleanup the cached summary keeps its trailing newlines (the
repository's own fixture caches `"Summary text\n\n"`), so for the summary
`"S\n\n"` and one section the result starts `"S\n\n\n\n..."`, while the
claim's serialization (summary trimmed, then one blank line) yields
`"S\n\nT\nx"`. -/
theorem C7_counterexample :
    pageText combine_sections_plain "S\n\n" [SecT.node "T" "x" []]
      ≠ claimPageText combine_sections_plain "S\n\n" [SecT.node "T" "x" []]
    ∧ pageText combine_sections_plain "S\n\n" [SecT.node "T" "x" []] = "S\n\n\n\nT\nx"
    ∧ claimPageText combine_sections_plain "S\n\n" [SecT.node "T" "x" []] = "S\n\nT\nx" := by
  exact ⟨by decide, by decide, by decide⟩

/-! ## C8: unbalanced region markers -/

/-- C8 (counterexample): the Markup Filter does not tolerate unbalanced end
markers: `handle_endtag` pops the seeded base flag unconditionally, and the
following text content indexes the now-empty stack, raising IndexError. -/
theorem C8_counterexample :
    feed initFilter [HEvent.endTag "x", HEvent.dataEv "a"] = none := by decide

theorem feed_balanced_isSome : ∀ (evs : List HEvent) (st : FilterState),
    (∀ n, n ≤ evs.length →
      nEnds (evs.take n) + 1 ≤ nStarts (evs.take n) + st.include_stack.length) →
    (feed st evs).isSome := by
  intro evs
  induction evs with
  | nil => intro st _; simp [feed]
  | cons e es ih =>
      intro st h
      have hlen : 1 ≤ st.include_stack.length := by
        have h0 := h 0 (by omega)
        simpa [nStarts, nEnds] using h0
      obtain ⟨t, s, hs⟩ : ∃ t s, st.include_stack = t :: s := by
        cases hst : st.include_stack with
        | nil => rw [hst] at hlen; simp at hlen
        | cons t s => exact ⟨t, s, rfl⟩
      have hlen2 : st.include_stack.length = s.length + 1 := by rw [hs]; rfl
      cases e with
      | startTag tag =>
          by_cases hm : pyLower tag = "math"
          · simp only [feed, feedEvent, handle_starttag, hm, if_pos]
            apply ih
            intro n hn
            have h2 := h (n + 1) (by simpa using Nat.succ_le_succ hn)
            simp [nStarts, nEnds, List.countP_cons, hlen2] at h2 ⊢
            omega
          · simp only [feed, feedEvent, handle_starttag, hs]
            rw [if_neg hm]
            apply ih
            intro n hn
            have h2 := h (n + 1) (by simpa using Nat.succ_le_succ hn)
            simp [nStarts, nEnds, List.countP_cons, hlen2] at h2 ⊢
            omega
      | endTag tag =>
          simp only [feed, feedEvent, handle_endtag, hs]
          apply ih
          intro n hn
          have h1 := h 1 (by simp)
          have h2 := h (n + 1) (by simpa using Nat.succ_le_succ hn)
          simp [nStarts, nEnds, List.countP_cons, hlen2] at h1 h2 ⊢
          omega
      | dataEv d =>
          simp only [feed, feedEvent, handle_data, hs]
          cases t with
          | true =>
              simp only [if_pos]
              apply ih
              intro n hn
              have h2 := h (n + 1) (by simpa using Nat.succ_le_succ hn)
              simp [nStarts, nEnds, List.countP_cons, hlen2] at h2 ⊢
              omega
          | false =>
              simp only [Bool.false_eq_true, if_false]
              apply ih
              intro n hn
              have h2 := h (n + 1) (by simpa using Nat.succ_le_succ hn)
              simp [nStarts, nEnds, List.countP_cons, hlen2, hs] at h2 ⊢
              omega

/-- C8 (amended): an end marker with no matching open region actually pops
the seeded base inclusion flag off the stack - a removal, not a no-op - so
the tolerance guarantee is one-sided: the filter returns a result without
raising for every fragment in which no prefix closes more regions than it
has opened, while fragments violating that bound can raise - text content
after the stack has been emptied indexes the empty stack and raises
IndexError (see the counterexample). -/
theorem C8_tolerance :
    (∀ evs : List HEvent, PrefixBalanced evs → (feed initFilter evs).isSome)
    ∧ feed initFilter [HEvent.endTag "x"] = some ⟨[], []⟩ := by
  constructor
  · intro evs hb
    apply feed_balanced_isSome
    intro n hn
    have h2 := hb n hn
    simp only [initFilter, List.length_cons, List.length_nil]
    omega
  · decide

/-- C8 (witness): the tolerance half applied to a concrete balanced
fragment. -/
theorem C8_witness :
    PrefixBalanced [HEvent.startTag "a", HEvent.dataEv "x", HEvent.endTag "a"]
    ∧ (feed initFilter [HEvent.startTag "a", HEvent.dataEv "x", HEvent.endTag "a"]).isSome := by
  exact ⟨by decide, C8_tolerance.1 _ (by decide)⟩

/-! ## C9: excluded math regions -/

theorem feed_append : ∀ (l1 l2 : List HEvent) (st : FilterState),
    feed st (l1 ++ l2)
      = match feed st l1 with
        | none => none
        | some st2 => feed st2 l2 := by
  intro l1
  induction l1 with
  | nil => intro l2 st; rfl
  | cons e es ih =>
      intro l2 st
      simp only [List.cons_append, feed]
      cases feedEvent st e with
      | none => rfl
      | some st2 => exact ih l2 st2

theorem str_append_empty (s : String) : s ++ "" = s := by
  cases s with
  | mk data => show String.mk (data ++ []) = String.mk data; rw [List.append_nil]

/-- Processing a balanced-prefix event stream while inside an excluded
region neither emits text nor disturbs the stack below the region's own
flag: every pushed flag is again `false` and every pop removes a pushed
flag. -/
theorem feed_excluded : ∀ (evs : List HEvent) (parts : List String) (ext base : List Bool),
    (∀ b ∈ ext, b = false) →
    (∀ n, n ≤ evs.length → nEnds (evs.take n) ≤ nStarts (evs.take n) + ext.length) →
    ∃ ext2, (∀ b ∈ ext2, b = false)
      ∧ ext2.length + nEnds evs = ext.length + nStarts evs
      ∧ feed ⟨parts, ext ++ false :: base⟩ evs = some ⟨parts, ext2 ++ false :: base⟩ := by
  intro evs
  induction evs with
  | nil =>
      intro parts ext base hext _
      exact ⟨ext, hext, by simp [nStarts, nEnds], by simp [feed]⟩
  | cons e es ih =>
      intro parts ext base hext h
      cases e with
      | startTag tag =>
          have hstep : feedEvent ⟨parts, ext ++ false :: base⟩ (.startTag tag)
              = some ⟨parts, (false :: ext) ++ false :: base⟩ := by
            cases hx : ext with
            | nil =>
                simp only [feedEvent, handle_starttag, List.nil_append]
                by_cases hm : pyLower tag = "math" <;> simp [hm]
            | cons b bs =>
                have hb : b = false := hext b (by simp [hx])
                simp only [feedEvent, handle_starttag, List.cons_append]
                by_cases hm : pyLower tag = "math" <;> simp [hm, hb]
          have hext1 : ∀ b ∈ (false :: ext), b = false := by
            intro b hb
            rcases List.mem_cons.mp hb with hb2 | hb2
            · exact hb2
            · exact hext b hb2
          have hcond : ∀ n, n ≤ es.length →
              nEnds (es.take n) ≤ nStarts (es.take n) + (false :: ext).length := by
            intro n hn
            have h2 := h (n + 1) (by simpa using Nat.succ_le_succ hn)
            simp [nStarts, nEnds, List.countP_cons] at h2 ⊢
            omega
          obtain ⟨ext2, hext2, hlen2, hfeed2⟩ := ih parts (false :: ext) base hext1 hcond
          refine ⟨ext2, hext2, ?_, ?_⟩
          · simp only [nStarts, nEnds, List.countP_cons, List.length_cons] at hlen2 ⊢
            simp at hlen2 ⊢
            omega
          · simp only [feed, hstep]
            exact hfeed2
      | endTag tag =>
          have h1 := h 1 (by simp)
          have hne : ext ≠ [] := by
            intro hx
            rw [hx] at h1
            simp [nStarts, nEnds, List.countP_cons] at h1
          obtain ⟨b, bs, hx⟩ : ∃ b bs, ext = b :: bs := by
            cases hxx : ext with
            | nil => exact absurd hxx hne
            | cons b bs => exact ⟨b, bs, rfl⟩
          have hstep : feedEvent ⟨parts, ext ++ false :: base⟩ (.endTag tag)
              = some ⟨parts, bs ++ false :: base⟩ := by
            simp [feedEvent, handle_endtag, hx]
          have hcond : ∀ n, n ≤ es.length →
              nEnds (es.take n) ≤ nStarts (es.take n) + bs.length := by
            intro n hn
            have h2 := h (n + 1) (by simpa using Nat.succ_le_succ hn)
            simp [nStarts, nEnds, List.countP_cons, hx] at h2 ⊢
            omega
          obtain ⟨ext2, hext2, hlen2, hfeed2⟩ :=
            ih parts bs base (by
              intro c hc
              exact hext c (by simp [hx, hc])) hcond
          refine ⟨ext2, hext2, ?_, ?_⟩
          · simp [nStarts, nEnds, List.countP_cons, hx] at hlen2 ⊢
            omega
          · simp only [feed, hstep]
            exact hfeed2
      | dataEv d =>
          have hstep : feedEvent ⟨parts, ext ++ false :: base⟩ (.dataEv d)
              = some ⟨parts, ext ++ false :: base⟩ := by
            cases hx : ext with
            | nil => simp [feedEvent, handle_data]
            | cons b bs =>
                have hb : b = false := hext b (by simp [hx])
                simp [feedEvent, handle_data, hb]
          have hcond : ∀ n, n ≤ es.length →
              nEnds (es.take n) ≤ nStarts (es.take n) + ext.length := by
            intro n hn
            have h2 := h (n + 1) (by simpa using Nat.succ_le_succ hn)
            simp [nStarts, nEnds, List.countP_cons] at h2 ⊢
            omega
          obtain ⟨ext2, hext2, hlen2, hfeed2⟩ := ih parts ext base hext hcond
          refine ⟨ext2, hext2, ?_, ?_⟩
          · simp [nStarts, nEnds, List.countP_cons] at hlen2 ⊢
            omega
          · simp only [feed, hstep]
            exact hfeed2

/-- C9 (confirmed): for a fragment consisting of included text, a
math-tagged excluded region whose inner events are balanced (arbitrary
nesting inside), and more included text, the filter's output omits all
text inside the excluded region and equals the concatenation of the text
before and after it, byte for byte. -/
theorem C9_math_region :
    ∀ (pre post : String) (inner : List HEvent),
      PrefixBalanced inner → nStarts inner = nEnds inner →
      (feed initFilter ([HEvent.dataEv pre, HEvent.startTag "math"] ++ inner
          ++ [HEvent.endTag "math", HEvent.dataEv post])).map get_text
        = some (pre ++ post) := by
  intro pre post inner hbal heq
  have hstart : feed initFilter ([HEvent.dataEv pre, HEvent.startTag "math"] ++ inner
      ++ [HEvent.endTag "math", HEvent.dataEv post])
      = feed ⟨[pre], ([] : List Bool) ++ false :: [true]⟩
          (inner ++ [HEvent.endTag "math", HEvent.dataEv post]) := rfl
  obtain ⟨ext2, hext2f, hlen2, hfeed2⟩ :=
    feed_excluded inner [pre] [] [true] (by intro b hb; simp at hb)
      (by intro n hn; simpa using hbal n hn)
  have hext2nil : ext2 = [] := by
    have hl : ext2.length = 0 := by
      simp only [List.length_nil] at hlen2
      omega
    exact List.length_eq_zero.mp hl
  rw [hstart, feed_append, hfeed2, hext2nil]
  show (feed (⟨[pre], [false, true]⟩ : FilterState)
      [HEvent.endTag "math", HEvent.dataEv post]).map get_text = some (pre ++ post)
  show some (get_text ⟨[pre] ++ [post], [true]⟩) = some (pre ++ post)
  simp [get_text, joinAll, str_append_empty]

/-- C9 (witness): the theorem applied with a nested region inside the math
region. -/
theorem C9_witness :
    (feed initFilter ([HEvent.dataEv "a", HEvent.startTag "math"]
        ++ [HEvent.startTag "mi", HEvent.dataEv "x", HEvent.endTag "mi"]
        ++ [HEvent.endTag "math", HEvent.dataEv "b"])).map get_text
      = some ("a" ++ "b") := by
  exact C9_math_region "a" "b"
    [HEvent.startTag "mi", HEvent.dataEv "x", HEvent.endTag "mi"] (by decide) (by decide)

/-! ## C2 machinery: effect of the match loop on summary and texts -/

theorem updateAt_length (l : List SecNode) (i : Nat) (f : SecNode → SecNode) :
    (updateAt l i f).length = l.length := by
  induction l generalizing i with
  | nil => rfl
  | cons x xs ih =>
      cases i with
      | zero => rfl
      | succ n => simp [updateAt, ih]

theorem updateAt_get? (l : List SecNode) (i j : Nat) (f : SecNode → SecNode) :
    (updateAt l i f).get? j = if j = i then (l.get? j).map f else l.get? j := by
  induction l generalizing i j with
  | nil => simp [updateAt]
  | cons x xs ih =>
      cases i with
      | zero =>
          cases j with
          | zero => simp [updateAt]
          | succ jj => simp [updateAt]
      | succ n =>
          cases j with
          | zero => simp [updateAt]
          | succ jj => simpa [updateAt] using ih n jj

theorem appendChild_summary (st : BuildState) (idx : Nat) :
    (appendChild st idx).summary = st.summary := by
  unfold appendChild; split <;> rfl

theorem appendChild_prevPos (st : BuildState) (idx : Nat) :
    (appendChild st idx).prevPos = st.prevPos := by
  unfold appendChild; split <;> rfl

theorem appendChild_lastSec (st : BuildState) (idx : Nat) :
    (appendChild st idx).lastSec = st.lastSec := by
  unfold appendChild; split <;> rfl

theorem appendChild_arena_length (st : BuildState) (idx : Nat) :
    (appendChild st idx).arena.length = st.arena.length := by
  unfold appendChild; split <;> simp [updateAt_length]

theorem appendChild_text_get? (st : BuildState) (idx : Nat) (j : Nat) :
    ((appendChild st idx).arena.get? j).map SecNode.text
      = (st.arena.get? j).map SecNode.text := by
  have htext : ∀ (k : Nat) (g : SecNode → SecNode), (∀ n, (g n).text = n.text) →
      ((updateAt st.arena k g).get? j).map SecNode.text
        = (st.arena.get? j).map SecNode.text := by
    intro k g hg
    rw [updateAt_get?]
    by_cases hj : j = k
    · rw [if_pos hj]
      cases st.arena.get? j with
      | none => rfl
      | some n => simp [hg n]
    · rw [if_neg hj]
  unfold appendChild
  split
  · exact htext _ _ (fun n => rfl)
  · rfl
  · exact htext _ _ (fun n => rfl)
  · rfl
  · rfl

theorem processMatch_effect (cleanup : String → String) (body : String)
    (st : BuildState) (m : HeadingMatch) (st1 : BuildState)
    (hsum : st.summary ≠ "") (hlast : st.lastSec = some (st.arena.length - 1))
    (hlen : 1 ≤ st.arena.length)
    (hpm : processMatch cleanup body st m = some st1) :
    st1.summary = st.summary
    ∧ st1.arena.length = st.arena.length + 1
    ∧ st1.lastSec = some st.arena.length
    ∧ st1.prevPos = m.mend
    ∧ (st1.arena.get? (st.arena.length - 1)).map SecNode.text
        = some (cleanup (pySlice body st.prevPos m.mstart))
    ∧ (∀ i, i + 1 < st.arena.length →
        (st1.arena.get? i).map SecNode.text = (st.arena.get? i).map SecNode.text) := by
  simp only [processMatch, hlast] at hpm
  rw [if_neg hsum] at hpm
  simp only [updateAt_length] at hpm
  cases hrec : reconcileStack st.stack st.arena.length m.level with
  | none => rw [hrec] at hpm; exact absurd hpm (by simp)
  | some stack2 =>
      rw [hrec] at hpm
      simp only [Option.some.injEq] at hpm
      subst hpm
      refine ⟨?_, ?_, ?_, ?_, ?_, ?_⟩
      · show (appendChild _ _).summary = st.summary
        rw [appendChild_summary]
      · show (appendChild _ _).arena.length = st.arena.length + 1
        rw [appendChild_arena_length]
        simp [updateAt_length]
      · rfl
      · rfl
      · show ((appendChild _ _).arena.get? (st.arena.length - 1)).map SecNode.text = _
        rw [appendChild_text_get?]
        show (((updateAt st.arena (st.arena.length - 1)
            (fun n => { n with text := cleanup (pySlice body st.prevPos m.mstart) }))
            ++ [_create_section cleanup m]).get? (st.arena.length - 1)).map SecNode.text = _
        have hin : st.arena.length - 1 < (updateAt st.arena (st.arena.length - 1)
            (fun n => { n with text := cleanup (pySlice body st.prevPos m.mstart) })).length := by
          rw [updateAt_length]; omega
        rw [List.get?_append hin, updateAt_get?, if_pos rfl]
        obtain ⟨nd, hnd⟩ : ∃ nd, st.arena.get? (st.arena.length - 1) = some nd := by
          cases hg : st.arena.get? (st.arena.length - 1) with
          | none =>
              have := List.get?_eq_none.mp hg
              omega
          | some nd => exact ⟨nd, rfl⟩
        rw [hnd]
        rfl
      · intro i hi
        show ((appendChild _ _).arena.get? i).map SecNode.text = _
        rw [appendChild_text_get?]
        show (((updateAt st.arena (st.arena.length - 1)
            (fun n => { n with text := cleanup (pySlice body st.prevPos m.mstart) }))
            ++ [_create_section cleanup m]).get? i).map SecNode.text = _
        have hin : i < (updateAt st.arena (st.arena.length - 1)
            (fun n => { n with text := cleanup (pySlice body st.prevPos m.mstart) })).length := by
          rw [updateAt_length]; omega
        rw [List.get?_append hin, updateAt_get?, if_neg (by omega)]

theorem buildLoop_texts (cleanup : String → String) (body : String) :
    ∀ (ms : List HeadingMatch) (st st2 : BuildState),
      st.summary ≠ "" →
      st.lastSec = some (st.arena.length - 1) →
      1 ≤ st.arena.length →
      buildLoop cleanup body st ms = some st2 →
      st2.summary = st.summary
      ∧ st2.arena.length = st.arena.length + ms.length
      ∧ st2.lastSec = some (st.arena.length + ms.length - 1)
      ∧ (∀ i, i + 1 < st.arena.length →
          (st2.arena.get? i).map SecNode.text = (st.arena.get? i).map SecNode.text)
      ∧ (∀ m1 ms1, ms = m1 :: ms1 →
          (st2.arena.get? (st.arena.length - 1)).map SecNode.text
            = some (cleanup (pySlice body st.prevPos m1.mstart)))
      ∧ (∀ j mj mk, ms.get? j = some mj → ms.get? (j + 1) = some mk →
          (st2.arena.get? (st.arena.length + j)).map SecNode.text
            = some (cleanup (pySlice body mj.mend mk.mstart))) := by
  intro ms
  induction ms with
  | nil =>
      intro st st2 hsum hlast hlen hbl
      simp only [buildLoop, Option.some.injEq] at hbl
      subst hbl
      refine ⟨rfl, by simp, by simpa using hlast, fun i _ => rfl, ?_, ?_⟩
      · intro m1 ms1 h
        exact absurd h (by simp)
      · intro j mj mk hj hk
        simp at hj
  | cons m ms2 ih =>
      intro st st2 hsum hlast hlen hbl
      simp only [buildLoop] at hbl
      cases hpm : processMatch cleanup body st m with
      | none => rw [hpm] at hbl; exact absurd hbl (by simp)
      | some stM =>
          rw [hpm] at hbl
          obtain ⟨e1, e2, e3, e4, e5, e6⟩ :=
            processMatch_effect cleanup body st m stM hsum hlast hlen hpm
          have hsum2 : stM.summary ≠ "" := by rw [e1]; exact hsum
          have hlast2 : stM.lastSec = some (stM.arena.length - 1) := by
            rw [e3, e2]
            simp
          have hlen2 : 1 ≤ stM.arena.length := by omega
          obtain ⟨i1, i2, i3, i4, i5, i6⟩ := ih stM st2 hsum2 hlast2 hlen2 hbl
          refine ⟨?_, ?_, ?_, ?_, ?_, ?_⟩
          · rw [i1, e1]
          · rw [i2, e2]
            simp only [List.length_cons]
            omega
          · rw [i3, e2]
            simp only [List.length_cons]
            congr 1
            omega
          · intro i hi
            rw [i4 i (by omega)]
            exact e6 i hi
          · intro m1 ms1 h
            have hm1 : m1 = m := by
              injection h with h1 _
              exact h1.symm
            subst hm1
            rw [i4 (st.arena.length - 1) (by omega)]
            exact e5
          · intro j mj mk hj hk
            cases j with
            | zero =>
                have hmj : mj = m := by
                  simp at hj
                  exact hj.symm
                subst hmj
                obtain ⟨ms3, hms3⟩ : ∃ ms3, ms2 = mk :: ms3 := by
                  cases hms : ms2 with
                  | nil => rw [hms] at hk; simp at hk
                  | cons a b =>
                      rw [hms] at hk
                      simp at hk
                      exact ⟨b, by rw [hk]⟩
                have := i5 mk ms3 hms3
                rw [e4] at this
                have hidx : stM.arena.length - 1 = st.arena.length + 0 := by omega
                rw [hidx] at this
                exact this
            | succ j2 =>
                have hj2 : ms2.get? j2 = some mj := by simpa using hj
                have hk2 : ms2.get? (j2 + 1) = some mk := by simpa using hk
                have := i6 j2 mj mk hj2 hk2
                have hidx : stM.arena.length + j2 = st.arena.length + (j2 + 1) := by omega
                rw [hidx] at this
                exact this

theorem processMatch_first (cleanup : String → String) (body : String)
    (m : HeadingMatch) (st1 : BuildState)
    (hpm : processMatch cleanup body (initBuild "") m = some st1) :
    st1.summary = cleanup (pySlice body 0 m.mstart)
    ∧ st1.arena.length = 1
    ∧ st1.lastSec = some 0
    ∧ st1.prevPos = m.mend := by
  simp only [processMatch, initBuild] at hpm
  simp only [if_true] at hpm
  simp only [List.length_nil] at hpm
  cases hrec : reconcileStack [none] 0 m.level with
  | none => rw [hrec] at hpm; exact absurd hpm (by simp)
  | some stack2 =>
      rw [hrec] at hpm
      simp only [Option.some.injEq] at hpm
      subst hpm
      refine ⟨?_, ?_, rfl, rfl⟩
      · show (appendChild _ _).summary = _
        rw [appendChild_summary]
      · show (appendChild _ _).arena.length = 1
        rw [appendChild_arena_length]
        rfl

/-- C2 (amended): for every body and non-empty heading-match sequence whose
text before the first match is non-empty after cleanup, the summary is
assigned exactly once — the cleaned text from the start of the body up to
the first match's start — and the text between any two consecutive matches
is assigned to the section created at the earlier match, never to the
summary.  (When the first span cleans to empty, the `page._summary == ''`
guard re-fires at the next match and the summary absorbs the span from the
body's start; see the counterexample.) -/
theorem C2_summary_spans (cleanup : String → String) (body : String)
    (m0 : HeadingMatch) (rest : List HeadingMatch) (st : BuildState)
    (hS : cleanup (pySlice body 0 m0.mstart) ≠ "")
    (hb : build_structured cleanup "" body (m0 :: rest) = some st) :
    st.summary = cleanup (pySlice body 0 m0.mstart)
    ∧ (∀ i mi mj, (m0 :: rest).get? i = some mi → (m0 :: rest).get? (i + 1) = some mj →
        (st.arena.get? i).map SecNode.text = some (cleanup (pySlice body mi.mend mj.mstart))) := by
  unfold build_structured at hb
  cases hpm : processMatch cleanup body (initBuild "") m0 with
  | none =>
      rw [show buildLoop cleanup body (initBuild "") (m0 :: rest) = none from by
        simp [buildLoop, hpm]] at hb
      exact absurd hb (by simp)
  | some st1 =>
      rw [show buildLoop cleanup body (initBuild "") (m0 :: rest)
          = buildLoop cleanup body st1 rest from by simp [buildLoop, hpm]] at hb
      obtain ⟨f1, f2, f3, f4⟩ := processMatch_first cleanup body m0 st1 hpm
      cases hbl : buildLoop cleanup body st1 rest with
      | none => rw [hbl] at hb; exact absurd hb (by simp)
      | some stL =>
          rw [hbl] at hb
          dsimp only at hb
          obtain ⟨L1, L2, L3, L4, L5, L6⟩ := buildLoop_texts cleanup body rest st1 stL
            (by rw [f1]; exact hS) (by rw [f3, f2]) (by omega) hbl
          have hsummaryL : stL.summary = cleanup (pySlice body 0 m0.mstart) := by
            rw [L1, f1]
          have L3b : stL.lastSec = some rest.length := by
            rw [L3, f2]
            congr 1
            omega
          have hspanL : ∀ i mi mj, (m0 :: rest).get? i = some mi →
              (m0 :: rest).get? (i + 1) = some mj →
              (stL.arena.get? i).map SecNode.text
                = some (cleanup (pySlice body mi.mend mj.mstart)) := by
            intro i mi mj hi hj
            cases i with
            | zero =>
                have hmi : mi = m0 := by simpa using hi.symm
                subst hmi
                obtain ⟨ms3, hms3⟩ : ∃ ms3, rest = mj :: ms3 := by
                  cases hms : rest with
                  | nil => rw [hms] at hj; simp at hj
                  | cons a b =>
                      rw [hms] at hj
                      simp at hj
                      exact ⟨b, by rw [hj]⟩
                have h5 := L5 mj ms3 hms3
                rw [f4, f2] at h5
                simpa using h5
            | succ i2 =>
                have hi2 : rest.get? i2 = some mi := by simpa using hi
                have hj2 : rest.get? (i2 + 1) = some mj := by simpa using hj
                have h6 := L6 i2 mi mj hi2 hj2
                rw [f2] at h6
                have hidx : 1 + i2 = i2 + 1 := by omega
                rw [hidx] at h6
                exact h6
          have hilt : ∀ i mi mj, (m0 :: rest).get? i = some mi →
              (m0 :: rest).get? (i + 1) = some mj → i < rest.length := by
            intro i mi mj _ hj
            have := List.get?_eq_some.mp hj
            obtain ⟨hlt, _⟩ := this
            simp at hlt
            omega
          by_cases hpp : stL.prevPos > 0
          · rw [if_pos hpp, L3b] at hb
            dsimp only at hb
            simp only [Option.some.injEq] at hb
            subst hb
            refine ⟨hsummaryL, ?_⟩
            intro i mi mj hi hj
            show ((updateAt stL.arena rest.length _).get? i).map SecNode.text = _
            rw [updateAt_get?, if_neg (by have := hilt i mi mj hi hj; omega)]
            exact hspanL i mi mj hi hj
          · rw [if_neg hpp] at hb
            simp only [Option.some.injEq] at hb
            subst hb
            exact ⟨hsummaryL, hspanL⟩

/-- C2 (witness): the amended theorem applied to a concrete two-heading
body with a non-empty summary span. -/
theorem C2_witness :
    pyStrip (pySlice c2Body 0 3) ≠ ""
    ∧ c2Built.summary = "Su."
    ∧ (c2Built.arena.get? 0).map SecNode.text = some "t1" := by
  have hb : build_structured pyStrip "" c2Body c2Matches = some c2Built := by decide
  have h := C2_summary_spans pyStrip c2Body ⟨3, 6, "A", 2⟩ [⟨8, 11, "B", 2⟩] c2Built
    (by decide) hb
  refine ⟨by decide, ?_, ?_⟩
  · exact h.1.trans (by decide)
  · have h2 := h.2 0 ⟨3, 6, "A", 2⟩ ⟨8, 11, "B", 2⟩ (by decide) (by decide)
    exact h2.trans (by decide)

/-! ## Lazy-resolution machinery: C3, C4, C5, C10 -/

theorem impl_structured_preserves (w : World) :
    (impl_structured w).world.page.called = w.page.called
    ∧ (impl_structured w).world.groupLog = w.groupLog := by
  unfold impl_structured runQuery
  cases htr : w.transport with
  | nil => exact ⟨rfl, rfl⟩
  | cons o rest =>
      cases o with
      | none => exact ⟨rfl, rfl⟩
      | some r =>
          cases hm : r.missing with
          | true =>
              simp only [hm]
              exact ⟨rfl, rfl⟩
          | false =>
              simp only [hm, Bool.false_eq_true, if_false]
              split
              · exact ⟨rfl, rfl⟩
              · exact ⟨rfl, rfl⟩

/-- When the structured fetch fails at its remote query itself (no planned
response, or a planned transport failure), the exception propagates before
`_build_structured` runs, so the page is untouched. -/
theorem impl_structured_transport_exn (w : World)
    (h : w.transport = [] ∨ ∃ rest, w.transport = none :: rest) :
    ∃ w2, impl_structured w = .exn w2 ∧ w2.page = w.page := by
  rcases h with h | ⟨rest, h⟩
  · refine ⟨w, ?_, rfl⟩
    unfold impl_structured runQuery
    rw [h]
  · refine ⟨{ w with transport := rest }, ?_, rfl⟩
    unfold impl_structured runQuery
    rw [h]

theorem impl_info_preserves (w : World) :
    (impl_info w).world.page.called = w.page.called
    ∧ (impl_info w).world.groupLog = w.groupLog := by
  unfold impl_info runQuery
  cases htr : w.transport with
  | nil => exact ⟨rfl, rfl⟩
  | cons o rest =>
      cases o with
      | none => exact ⟨rfl, rfl⟩
      | some r =>
          cases hm : r.missing with
          | true =>
              simp only [hm]
              exact ⟨rfl, rfl⟩
          | false =>
              simp only [hm, Bool.false_eq_true, if_false]
              exact ⟨rfl, rfl⟩

theorem impl_info_exn_page (w : World) :
    (impl_info w).isOk = false → (impl_info w).world.page = w.page := by
  unfold impl_info runQuery
  cases htr : w.transport with
  | nil => intro _; rfl
  | cons o rest =>
      cases o with
      | none => intro _; rfl
      | some r =>
          cases hm : r.missing with
          | true =>
              simp only [hm]
              intro h
              exact Bool.noConfusion h
          | false =>
              simp only [hm, Bool.false_eq_true, if_false]
              intro h
              exact Bool.noConfusion h

theorem impl_langlinks_preserves (w : World) :
    (impl_langlinks w).world.page.called = w.page.called
    ∧ (impl_langlinks w).world.groupLog = w.groupLog := by
  unfold impl_langlinks runQuery
  cases htr : w.transport with
  | nil => exact ⟨rfl, rfl⟩
  | cons o rest =>
      cases o with
      | none => exact ⟨rfl, rfl⟩
      | some r =>
          cases hm : r.missing with
          | true =>
              simp only [hm]
              exact ⟨rfl, rfl⟩
          | false =>
              simp only [hm, Bool.false_eq_true, if_false]
              exact ⟨rfl, rfl⟩

theorem impl_langlinks_exn_page (w : World) :
    (impl_langlinks w).isOk = false → (impl_langlinks w).world.page = w.page := by
  unfold impl_langlinks runQuery
  cases htr : w.transport with
  | nil => intro _; rfl
  | cons o rest =>
      cases o with
      | none => intro _; rfl
      | some r =>
          cases hm : r.missing with
          | true =>
              simp only [hm]
              intro h
              exact Bool.noConfusion h
          | false =>
              simp only [hm, Bool.false_eq_true, if_false]
              intro h
              exact Bool.noConfusion h

theorem impl_links_preserves (w : World) :
    (impl_links w).world.page.called = w.page.called
    ∧ (impl_links w).world.groupLog = w.groupLog := by
  unfold impl_links runQuery
  cases htr : w.transport with
  | nil => exact ⟨rfl, rfl⟩
  | cons o rest =>
      cases o with
      | none => exact ⟨rfl, rfl⟩
      | some r =>
          cases hm : r.missing with
          | true =>
              simp only [hm]
              exact ⟨rfl, rfl⟩
          | false =>
              simp only [hm, Bool.false_eq_true, if_false]
              split
              · exact ⟨rfl, rfl⟩
              · exact ⟨rfl, rfl⟩

theorem impl_links_exn_page (w : World) :
    (impl_links w).isOk = false → (impl_links w).world.page = w.page := by
  unfold impl_links runQuery
  cases htr : w.transport with
  | nil => intro _; rfl
  | cons o rest =>
      cases o with
      | none => intro _; rfl
      | some r =>
          cases hm : r.missing with
          | true =>
              simp only [hm]
              intro h
              exact Bool.noConfusion h
          | false =>
              simp only [hm, Bool.false_eq_true, if_false]
              split
              · intro _; rfl
              · intro h
                exact Bool.noConfusion h

theorem impl_backlinks_preserves (w : World) :
    (impl_backlinks w).world.page.called = w.page.called
    ∧ (impl_backlinks w).world.groupLog = w.groupLog := by
  unfold impl_backlinks runQuery
  cases htr : w.transport with
  | nil => exact ⟨rfl, rfl⟩
  | cons o rest =>
      cases o with
      | none => exact ⟨rfl, rfl⟩
      | some r =>
          dsimp only
          split
          · exact ⟨rfl, rfl⟩
          · exact ⟨rfl, rfl⟩

theorem impl_backlinks_exn_page (w : World) :
    (impl_backlinks w).isOk = false → (impl_backlinks w).world.page = w.page := by
  unfold impl_backlinks runQuery
  cases htr : w.transport with
  | nil => intro _; rfl
  | cons o rest =>
      cases o with
      | none => intro _; rfl
      | some r =>
          dsimp only
          split
          · intro _; rfl
          · intro h
            exact Bool.noConfusion h

theorem impl_categories_preserves (w : World) :
    (impl_categories w).world.page.called = w.page.called
    ∧ (impl_categories w).world.groupLog = w.groupLog := by
  unfold impl_categories runQuery
  cases htr : w.transport with
  | nil => exact ⟨rfl, rfl⟩
  | cons o rest =>
      cases o with
      | none => exact ⟨rfl, rfl⟩
      | some r =>
          cases hm : r.missing with
          | true =>
              simp only [hm]
              exact ⟨rfl, rfl⟩
          | false =>
              simp only [hm, Bool.false_eq_true, if_false]
              exact ⟨rfl, rfl⟩

theorem impl_categories_exn_page (w : World) :
    (impl_categories w).isOk = false → (impl_categories w).world.page = w.page := by
  unfold impl_categories runQuery
  cases htr : w.transport with
  | nil => intro _; rfl
  | cons o rest =>
      cases o with
      | none => intro _; rfl
      | some r =>
          cases hm : r.missing with
          | true =>
              simp only [hm]
              intro h
              exact Bool.noConfusion h
          | false =>
              simp only [hm, Bool.false_eq_true, if_false]
              intro h
              exact Bool.noConfusion h

theorem impl_categorymembers_preserves (w : World) :
    (impl_categorymembers w).world.page.called = w.page.called
    ∧ (impl_categorymembers w).world.groupLog = w.groupLog := by
  unfold impl_categorymembers runQuery
  cases htr : w.transport with
  | nil => exact ⟨rfl, rfl⟩
  | cons o rest =>
      cases o with
      | none => exact ⟨rfl, rfl⟩
      | some r =>
          dsimp only
          split
          · exact ⟨rfl, rfl⟩
          · exact ⟨rfl, rfl⟩

theorem impl_categorymembers_exn_page (w : World) :
    (impl_categorymembers w).isOk = false → (impl_categorymembers w).world.page = w.page := by
  unfold impl_categorymembers runQuery
  cases htr : w.transport with
  | nil => intro _; rfl
  | cons o rest =>
      cases o with
      | none => intro _; rfl
      | some r =>
          dsimp only
          split
          · intro _; rfl
          · intro h
            exact Bool.noConfusion h

theorem groupImpl_preserves (g : Group) (w : World) :
    (groupImpl g w).world.page.called = w.page.called
    ∧ (groupImpl g w).world.groupLog = w.groupLog := by
  cases g
  case structured => exact impl_structured_preserves w
  case info => exact impl_info_preserves w
  case langlinks => exact impl_langlinks_preserves w
  case links => exact impl_links_preserves w
  case backlinks => exact impl_backlinks_preserves w
  case categories => exact impl_categories_preserves w
  case categorymembers => exact impl_categorymembers_preserves w

theorem groupImpl_exn_page (g : Group) (w : World) (hg : g ≠ Group.structured) :
    (groupImpl g w).isOk = false → (groupImpl g w).world.page = w.page := by
  cases g
  case structured => exact absurd rfl hg
  case info => exact impl_info_exn_page w
  case langlinks => exact impl_langlinks_exn_page w
  case links => exact impl_links_exn_page w
  case backlinks => exact impl_backlinks_exn_page w
  case categories => exact impl_categories_exn_page w
  case categorymembers => exact impl_categorymembers_exn_page w

theorem fetchGroup_log (w : World) (g : Group) :
    (fetchGroup w g).world.groupLog = w.groupLog ++ [g] := by
  unfold fetchGroup
  dsimp only
  have hp := (groupImpl_preserves g { w with groupLog := w.groupLog ++ [g] }).2
  cases hgi : groupImpl g { w with groupLog := w.groupLog ++ [g] } with
  | ok w2 =>
      rw [hgi] at hp
      exact hp
  | exn w2 =>
      rw [hgi] at hp
      exact hp

theorem fetchGroup_called_ok (w : World) (g : Group) (w2 : World)
    (h : fetchGroup w g = .ok w2) :
    ∀ g2, w2.page.called g2 = if g2 = g then true else w.page.called g2 := by
  unfold fetchGroup at h
  dsimp only at h
  have hp := (groupImpl_preserves g { w with groupLog := w.groupLog ++ [g] }).1
  cases hgi : groupImpl g { w with groupLog := w.groupLog ++ [g] } with
  | ok w3 =>
      rw [hgi] at h hp
      dsimp only at h
      injection h with h2
      subst h2
      intro g2
      show (if g2 = g then true else w3.page.called g2)
        = if g2 = g then true else w.page.called g2
      by_cases hg2 : g2 = g
      · rw [if_pos hg2, if_pos hg2]
      · rw [if_neg hg2, if_neg hg2]
        exact congrFun hp g2
  | exn w3 =>
      rw [hgi] at h
      exact absurd h (by simp)

theorem fetchGroup_exn_page (w : World) (g : Group) (w2 : World)
    (hg : g ≠ Group.structured) (h : fetchGroup w g = .exn w2) :
    w2.page = w.page := by
  unfold fetchGroup at h
  dsimp only at h
  cases hgi : groupImpl g { w with groupLog := w.groupLog ++ [g] } with
  | ok w3 =>
      rw [hgi] at h
      exact absurd h (by simp)
  | exn w3 =>
      rw [hgi] at h
      dsimp only at h
      injection h with h2
      subst h2
      have hio : (groupImpl g { w with groupLog := w.groupLog ++ [g] }).isOk = false := by
        rw [hgi]
        rfl
      have hpage := groupImpl_exn_page g { w with groupLog := w.groupLog ++ [g] } hg hio
      rw [hgi] at hpage
      exact hpage

/-- On any raising fetch the resolved flags are untouched: no group fetcher
mutates `_called` (only `_fetch` itself does, after a normal return). -/
theorem fetchGroup_exn_called (w : World) (g : Group) (w2 : World)
    (h : fetchGroup w g = .exn w2) :
    w2.page.called = w.page.called := by
  unfold fetchGroup at h
  dsimp only at h
  have hp := (groupImpl_preserves g { w with groupLog := w.groupLog ++ [g] }).1
  cases hgi : groupImpl g { w with groupLog := w.groupLog ++ [g] } with
  | ok w3 =>
      rw [hgi] at h
      exact absurd h (by simp)
  | exn w3 =>
      rw [hgi] at h
      dsimp only at h
      injection h with h2
      subst h2
      rw [hgi] at hp
      exact hp

theorem continuationLoop_chain : ∀ (conts : List ApiResponse) (rlast : ApiResponse)
    (rest : List (Option ApiResponse)) (acc : List String),
    (∀ r ∈ conts, r.hasContinue = true) → rlast.hasContinue = false →
    continuationLoop acc ((conts.map some ++ [some rlast]) ++ rest) true
      = (some ((acc ++ (conts.map ApiResponse.items).join) ++ rlast.items), rest) := by
  intro conts
  induction conts with
  | nil =>
      intro rlast rest acc _ hl
      show continuationLoop (acc ++ rlast.items) rest rlast.hasContinue = _
      rw [hl]
      simp [continuationLoop]
  | cons r conts2 ih =>
      intro rlast rest acc hcs hl
      show continuationLoop (acc ++ r.items) ((conts2.map some ++ [some rlast]) ++ rest)
          r.hasContinue = _
      rw [hcs r (by simp)]
      rw [ih rlast rest (acc ++ r.items) (fun r2 hr2 => hcs r2 (by simp [hr2])) hl]
      simp [List.append_assoc]

theorem continuationLoop_truncated : ∀ (conts : List ApiResponse) (acc : List String),
    (∀ r ∈ conts, r.hasContinue = true) →
    continuationLoop acc (conts.map some) true = (none, []) := by
  intro conts
  induction conts with
  | nil => intro acc _; rfl
  | cons r conts2 ih =>
      intro acc hcs
      show continuationLoop (acc ++ r.items) (conts2.map some) r.hasContinue = _
      rw [hcs r (by simp)]
      exact ih (acc ++ r.items) (fun r2 hr2 => hcs r2 (by simp [hr2]))

theorem foldl_dictInsertKey_nodup : ∀ (l acc : List String),
    l.Nodup → (∀ x ∈ l, x ∉ acc) → l.foldl dictInsertKey acc = acc ++ l := by
  intro l
  induction l with
  | nil => intro acc _ _; simp
  | cons x xs ih =>
      intro acc hnd hdisj
      simp only [List.foldl_cons]
      have hx : x ∉ acc := hdisj x (by simp)
      have hstep : dictInsertKey acc x = acc ++ [x] := by simp [dictInsertKey, hx]
      rw [hstep, ih (acc ++ [x]) (List.nodup_cons.mp hnd).2 ?_]
      · simp
      · intro y hy
        simp only [List.mem_append, List.mem_singleton]
        push_neg
        refine ⟨hdisj y (by simp [hy]), ?_⟩
        intro heq
        subst heq
        exact absurd hy (List.nodup_cons.mp hnd).1

theorem lookupA_setA_self : ∀ (l : List (String × AttrVal)) (n : String) (v : AttrVal),
    lookupA (setA l n v) n = some v := by
  intro l n v
  induction l with
  | nil => simp [setA, lookupA]
  | cons kv rest ih =>
      cases kv with
      | mk k x =>
          by_cases hk : k = n
          · simp [setA, hk, lookupA]
          · simp [setA, hk, lookupA, ih]

theorem readMappedAttr_all_called (w : World) (name : String) :
    ∀ gs : List Group, (∀ g ∈ gs, w.page.called g = true) →
      readMappedAttr w name gs = .ok w := by
  intro gs
  induction gs with
  | nil => intro _; rfl
  | cons g gs2 ih =>
      intro h
      have hg : w.page.called g = true := h g (by simp)
      simp only [readMappedAttr, hg, if_true]
      exact ih (fun g2 hg2 => h g2 (by simp [hg2]))

theorem nodup_append_single (l : List Group) (g : Group)
    (hn : g ∉ l) (hd : l.Nodup) : (l ++ [g]).Nodup := by
  rw [List.nodup_append]
  refine ⟨hd, List.nodup_singleton g, ?_⟩
  intro a ha hb
  simp only [List.mem_singleton] at hb
  subst hb
  exact hn ha

theorem fetchGroup_inv (w : World) (g : Group) (hinv : LogInv w)
    (hc : w.page.called g = false) :
    (∀ w2, fetchGroup w g = .ok w2 → LogInv w2 ∧ CalledMono w w2)
    ∧ (∀ w2, fetchGroup w g = .exn w2 → w2.groupLog.Nodup ∧ CalledMono w w2) := by
  have hnotmem : g ∉ w.groupLog := by
    intro hmem
    have := (hinv.1 g).mp hmem
    rw [hc] at this
    exact Bool.noConfusion this
  have hlog := fetchGroup_log w g
  constructor
  · intro w2 h
    have hlog2 : w2.groupLog = w.groupLog ++ [g] := by
      rw [show w2 = (fetchGroup w g).world from by rw [h]; rfl]
      exact hlog
    have hcalled := fetchGroup_called_ok w g w2 h
    refine ⟨⟨?_, ?_⟩, ?_⟩
    · intro g2
      rw [hlog2, hcalled g2]
      by_cases hg2 : g2 = g
      · subst hg2
        simp
      · rw [if_neg hg2]
        simp only [List.mem_append, List.mem_singleton, hg2, or_false]
        exact hinv.1 g2
    · rw [hlog2]
      exact nodup_append_single w.groupLog g hnotmem hinv.2
    · intro g2 hg2
      rw [hcalled g2]
      by_cases he : g2 = g
      · rw [if_pos he]
      · rw [if_neg he]
        exact hg2
  · intro w2 h
    have hlog2 : w2.groupLog = w.groupLog ++ [g] := by
      rw [show w2 = (fetchGroup w g).world from by rw [h]; rfl]
      exact hlog
    have hcalled := fetchGroup_exn_called w g w2 h
    refine ⟨?_, ?_⟩
    · rw [hlog2]
      exact nodup_append_single w.groupLog g hnotmem hinv.2
    · intro g2 hg2
      rw [hcalled]
      exact hg2

theorem readMappedAttr_inv (name : String) :
    ∀ (gs : List Group) (w : World), LogInv w →
      (∀ w2, readMappedAttr w name gs = .ok w2 → LogInv w2 ∧ CalledMono w w2)
      ∧ (∀ w2, readMappedAttr w name gs = .exn w2 → w2.groupLog.Nodup ∧ CalledMono w w2) := by
  intro gs
  induction gs with
  | nil =>
      intro w hinv
      constructor
      · intro w2 h
        injection h with h2
        subst h2
        exact ⟨hinv, fun g hg => hg⟩
      · intro w2 h
        exact absurd h (by simp [readMappedAttr])
  | cons g gs2 ih =>
      intro w hinv
      by_cases hc : w.page.called g = true
      · constructor
        · intro w2 h
          simp only [readMappedAttr, hc, eq_self_iff_true, if_true] at h
          exact (ih w hinv).1 w2 h
        · intro w2 h
          simp only [readMappedAttr, hc, eq_self_iff_true, if_true] at h
          exact (ih w hinv).2 w2 h
      · have hcF : w.page.called g = false := by
          cases hcc : w.page.called g
          · rfl
          · exact absurd hcc hc
        have hfi := fetchGroup_inv w g hinv hcF
        constructor
        · intro w2 h
          simp only [readMappedAttr, hcF, Bool.false_eq_true, if_false] at h
          cases hf : fetchGroup w g with
          | ok w3 =>
              rw [hf] at h
              dsimp only at h
              by_cases hks : (lookupA w3.page.attrs name).isSome
              · rw [if_pos hks] at h
                injection h with h2
                subst h2
                exact hfi.1 w3 hf
              · rw [if_neg hks] at h
                exact absurd h (by simp)
          | exn w3 =>
              rw [hf] at h
              exact absurd h (by simp)
        · intro w2 h
          simp only [readMappedAttr, hcF, Bool.false_eq_true, if_false] at h
          cases hf : fetchGroup w g with
          | ok w3 =>
              rw [hf] at h
              dsimp only at h
              by_cases hks : (lookupA w3.page.attrs name).isSome
              · rw [if_pos hks] at h
                exact absurd h (by simp)
              · rw [if_neg hks] at h
                injection h with h2
                subst h2
                obtain ⟨hi3, hm3⟩ := hfi.1 w3 hf
                exact ⟨hi3.2, hm3⟩
          | exn w3 =>
              rw [hf] at h
              injection h with h2
              subst h2
              exact hfi.2 w3 hf

theorem step_inv (w : World) (op : ReadOp) (hinv : LogInv w) :
    (∀ w2, step w op = .ok w2 → LogInv w2 ∧ CalledMono w w2)
    ∧ (∀ w2, step w op = .exn w2 → w2.groupLog.Nodup ∧ CalledMono w w2) := by
  cases op with
  | attr name =>
      cases hml : mappingLookup ATTRIBUTES_MAPPING name with
      | none =>
          constructor
          · intro w2 h
            simp only [step, hml] at h
            exact absurd h (by simp)
          · intro w2 h
            simp only [step, hml] at h
            injection h with h2
            subst h2
            exact ⟨hinv.2, fun g hg => hg⟩
      | some gs =>
          by_cases hcache : (lookupA w.page.attrs name).isSome
          · constructor
            · intro w2 h
              simp only [step, hml, hcache, if_true] at h
              injection h with h2
              subst h2
              exact ⟨hinv, fun g hg => hg⟩
            · intro w2 h
              simp only [step, hml, hcache, if_true] at h
              exact absurd h (by simp)
          · constructor
            · intro w2 h
              simp only [step, hml, hcache, if_false] at h
              exact (readMappedAttr_inv name gs w hinv).1 w2 h
            · intro w2 h
              simp only [step, hml, hcache, if_false] at h
              exact (readMappedAttr_inv name gs w hinv).2 w2 h
  | prop g =>
      by_cases hc : w.page.called g = true
      · constructor
        · intro w2 h
          simp only [step, hc, eq_self_iff_true, if_true] at h
          injection h with h2
          subst h2
          exact ⟨hinv, fun g2 hg2 => hg2⟩
        · intro w2 h
          simp only [step, hc, eq_self_iff_true, if_true] at h
          exact absurd h (by simp)
      · have hcF : w.page.called g = false := by
          cases hcc : w.page.called g
          · rfl
          · exact absurd hcc hc
        have hfi := fetchGroup_inv w g hinv hcF
        constructor
        · intro w2 h
          simp only [step, hcF, Bool.false_eq_true, if_false] at h
          exact hfi.1 w2 h
        · intro w2 h
          simp only [step, hcF, Bool.false_eq_true, if_false] at h
          exact hfi.2 w2 h

theorem run_inv : ∀ (ops : List ReadOp) (w : World), LogInv w →
    (run w ops).world.groupLog.Nodup ∧ CalledMono w ((run w ops).world) := by
  intro ops
  induction ops with
  | nil =>
      intro w hinv
      exact ⟨hinv.2, fun g hg => hg⟩
  | cons op ops2 ih =>
      intro w hinv
      cases hs : step w op with
      | ok w2 =>
          obtain ⟨hinv2, hmono⟩ := (step_inv w op hinv).1 w2 hs
          simp only [run, hs]
          obtain ⟨hn, hm⟩ := ih w2 hinv2
          exact ⟨hn, fun g hg => hm g (hmono g hg)⟩
      | exn w2 =>
          obtain ⟨hn, hmono⟩ := (step_inv w op hinv).2 w2 hs
          simp only [run, hs]
          exact ⟨hn, hmono⟩

/-- C3 (confirmed): re-reading a cached attribute, or a property whose call
group is resolved, returns the same world — no remote call, no log entry;
over any sequence of attribute reads from a state whose group log lists
exactly the resolved groups once (a fresh page in particular), the group
log stays duplicate-free — each call group executes at most once per page —
and a resolved flag never reverts to unresolved. -/
theorem C3_at_most_once :
    (∀ (w : World) (name : String) (gs : List Group),
        mappingLookup ATTRIBUTES_MAPPING name = some gs →
        (lookupA w.page.attrs name).isSome →
        step w (.attr name) = .ok w)
    ∧ (∀ (w : World) (g : Group), w.page.called g = true → step w (.prop g) = .ok w)
    ∧ (∀ (ops : List ReadOp) (w : World), LogInv w →
        (run w ops).world.groupLog.Nodup
        ∧ ∀ g, w.page.called g = true → (run w ops).world.page.called g = true) := by
  refine ⟨?_, ?_, ?_⟩
  · intro w name gs hml hcache
    simp only [step, hml, hcache, if_true]
  · intro w g hc
    simp only [step, hc, eq_self_iff_true, if_true]
  · intro ops w hinv
    exact run_inv ops w hinv

/-- C3 (witness): on a fresh world, the cached `title` attribute is
re-readable with no effect, and a read sequence leaves the group log
duplicate-free. -/
theorem C3_witness :
    step freshWorld (.attr "title") = .ok freshWorld
    ∧ (run freshWorld [ReadOp.attr "title", ReadOp.attr "language"]).world.groupLog.Nodup := by
  constructor
  · exact C3_at_most_once.1 freshWorld "title" [Group.info, Group.structured, Group.langlinks]
      (by decide) (by decide)
  · exact (C3_at_most_once.2.2 [ReadOp.attr "title", ReadOp.attr "language"] freshWorld
      ⟨by intro g; simp [freshWorld, initPage], by simp [freshWorld]⟩).1

theorem impl_links_chain (w : World) (r0 rlast : ApiResponse)
    (conts : List ApiResponse) (rest0 : List (Option ApiResponse))
    (htr : w.transport = some r0 :: ((conts.map some ++ [some rlast]) ++ rest0))
    (hm0 : r0.missing = false)
    (hc0 : r0.hasContinue = true)
    (hcs : ∀ r ∈ conts, r.hasContinue = true) (hl : rlast.hasContinue = false) :
    impl_links w = .ok { w with
      transport := rest0,
      page := { w.page with
        attrs := common_attributes r0.fields w.page.attrs,
        links := (((r0.items ++ (conts.map ApiResponse.items).join) ++ rlast.items).foldl
            dictInsertKey w.page.links) } } := by
  unfold impl_links runQuery
  rw [htr]
  dsimp only
  rw [hm0]
  simp only [Bool.false_eq_true, if_false]
  rw [hc0, continuationLoop_chain conts rlast rest0 r0.items hcs hl]

theorem impl_links_truncated (w : World) (r0 : ApiResponse)
    (conts : List ApiResponse) (k : Nat)
    (htr : w.transport = some r0 :: (conts.take k).map some)
    (hm0 : r0.missing = false)
    (hc0 : r0.hasContinue = true)
    (hcs : ∀ r ∈ conts, r.hasContinue = true) :
    impl_links w = .exn { w with transport := [] } := by
  unfold impl_links runQuery
  rw [htr]
  dsimp only
  rw [hm0]
  simp only [Bool.false_eq_true, if_false]
  rw [hc0, continuationLoop_truncated (conts.take k) r0.items
    (fun r hr => hcs r (List.take_subset k conts hr))]

theorem impl_backlinks_chain (w : World) (r0 rlast : ApiResponse)
    (conts : List ApiResponse) (rest0 : List (Option ApiResponse))
    (htr : w.transport = some r0 :: ((conts.map some ++ [some rlast]) ++ rest0))
    (hc0 : r0.hasContinue = true)
    (hcs : ∀ r ∈ conts, r.hasContinue = true) (hl : rlast.hasContinue = false) :
    impl_backlinks w = .ok { w with
      transport := rest0,
      page := { w.page with
        backlinks := (((r0.items ++ (conts.map ApiResponse.items).join) ++ rlast.items).foldl
            dictInsertKey w.page.backlinks) } } := by
  unfold impl_backlinks runQuery
  rw [htr]
  dsimp only
  rw [hc0, continuationLoop_chain conts rlast rest0 r0.items hcs hl]

theorem impl_backlinks_truncated (w : World) (r0 : ApiResponse)
    (conts : List ApiResponse) (k : Nat)
    (htr : w.transport = some r0 :: (conts.take k).map some)
    (hc0 : r0.hasContinue = true)
    (hcs : ∀ r ∈ conts, r.hasContinue = true) :
    impl_backlinks w = .exn { w with transport := [] } := by
  unfold impl_backlinks runQuery
  rw [htr]
  dsimp only
  rw [hc0, continuationLoop_truncated (conts.take k) r0.items
    (fun r hr => hcs r (List.take_subset k conts hr))]

theorem impl_categorymembers_chain (w : World) (r0 rlast : ApiResponse)
    (conts : List ApiResponse) (rest0 : List (Option ApiResponse))
    (htr : w.transport = some r0 :: ((conts.map some ++ [some rlast]) ++ rest0))
    (hc0 : r0.hasContinue = true)
    (hcs : ∀ r ∈ conts, r.hasContinue = true) (hl : rlast.hasContinue = false) :
    impl_categorymembers w = .ok { w with
      transport := rest0,
      page := { w.page with
        categorymembers := (((r0.items ++ (conts.map ApiResponse.items).join) ++ rlast.items).foldl
            dictInsertKey w.page.categorymembers) } } := by
  unfold impl_categorymembers runQuery
  rw [htr]
  dsimp only
  rw [hc0, continuationLoop_chain conts rlast rest0 r0.items hcs hl]

theorem impl_categorymembers_truncated (w : World) (r0 : ApiResponse)
    (conts : List ApiResponse) (k : Nat)
    (htr : w.transport = some r0 :: (conts.take k).map some)
    (hc0 : r0.hasContinue = true)
    (hcs : ∀ r ∈ conts, r.hasContinue = true) :
    impl_categorymembers w = .exn { w with transport := [] } := by
  unfold impl_categorymembers runQuery
  rw [htr]
  dsimp only
  rw [hc0, continuationLoop_truncated (conts.take k) r0.items
    (fun r hr => hcs r (List.take_subset k conts hr))]

/-- C4 (confirmed): for the links, backlinks and category-members groups,
when the first response carries a continuation token the fetcher issues
follow-up requests carrying the token and appends each response's items,
repeating until a token-free response arrives; the committed collection on
the page equals the concatenation of all responses' items in order (the
items being pairwise distinct titles, as the collection is a title-keyed
dict), and the group's resolved flag becomes true only after the final
token-free response is processed: with any transport that ends before a
token-free response, the fetch raises, the flag stays unchanged and
nothing is committed. -/
theorem C4_pagination :
    ∀ (w : World) (g : Group) (r0 rlast : ApiResponse) (conts : List ApiResponse)
      (rest0 : List (Option ApiResponse)),
      (g = Group.links ∨ g = Group.backlinks ∨ g = Group.categorymembers) →
      w.transport = some r0 :: ((conts.map some ++ [some rlast]) ++ rest0) →
      r0.missing = false → r0.hasContinue = true →
      (∀ r ∈ conts, r.hasContinue = true) → rlast.hasContinue = false →
      ((r0.items ++ (conts.map ApiResponse.items).join) ++ rlast.items).Nodup →
      (groupCache w.page g).1 = [] →
      (∃ w2, fetchGroup w g = .ok w2
          ∧ (groupCache w2.page g).1
              = (r0.items ++ (conts.map ApiResponse.items).join) ++ rlast.items
          ∧ w2.page.called g = true ∧ w2.transport = rest0)
      ∧ (∀ (wT : World) (k : Nat),
          wT.transport = some r0 :: (conts.take k).map some →
          ∃ w4, fetchGroup wT g = .exn w4 ∧ w4.page = wT.page) := by
  intro w g r0 rlast conts rest0 hmem htr hm0 hc0 hcs hl hnd hE
  rcases hmem with hg | hg | hg
  · subst hg
    constructor
    · have himpl := impl_links_chain
          { w with groupLog := w.groupLog ++ [Group.links] }
          r0 rlast conts rest0 htr hm0 hc0 hcs hl
      cases hfg : fetchGroup w Group.links with
      | exn w2 =>
          unfold fetchGroup at hfg
          dsimp only at hfg
          rw [show groupImpl Group.links { w with groupLog := w.groupLog ++ [Group.links] }
              = impl_links { w with groupLog := w.groupLog ++ [Group.links] } from rfl,
            himpl] at hfg
          exact absurd hfg (by simp)
      | ok w2 =>
          unfold fetchGroup at hfg
          dsimp only at hfg
          rw [show groupImpl Group.links { w with groupLog := w.groupLog ++ [Group.links] }
              = impl_links { w with groupLog := w.groupLog ++ [Group.links] } from rfl,
            himpl] at hfg
          dsimp only at hfg
          injection hfg with h2
          refine ⟨w2, rfl, ?_, ?_, ?_⟩
          · rw [← h2]
            have hEl : w.page.links = ([] : List String) := hE
            show (((r0.items ++ (conts.map ApiResponse.items).join) ++ rlast.items).foldl
                dictInsertKey w.page.links)
              = ((r0.items ++ (conts.map ApiResponse.items).join) ++ rlast.items)
            rw [hEl, foldl_dictInsertKey_nodup _ [] hnd (by intro x hx hmem; simp at hmem)]
            simp
          · rw [← h2]
            simp [setCalled]
          · rw [← h2]
    · intro wT k htrT
      have himplT := impl_links_truncated
          { wT with groupLog := wT.groupLog ++ [Group.links] }
          r0 conts k htrT hm0 hc0 hcs
      refine ⟨{ { wT with groupLog := wT.groupLog ++ [Group.links] } with transport := [] }, ?_, rfl⟩
      unfold fetchGroup
      dsimp only
      rw [show groupImpl Group.links { wT with groupLog := wT.groupLog ++ [Group.links] }
          = impl_links { wT with groupLog := wT.groupLog ++ [Group.links] } from rfl,
        himplT]
  · subst hg
    constructor
    · have himpl := impl_backlinks_chain
          { w with groupLog := w.groupLog ++ [Group.backlinks] }
          r0 rlast conts rest0 htr hc0 hcs hl
      cases hfg : fetchGroup w Group.backlinks with
      | exn w2 =>
          unfold fetchGroup at hfg
          dsimp only at hfg
          rw [show groupImpl Group.backlinks { w with groupLog := w.groupLog ++ [Group.backlinks] }
              = impl_backlinks { w with groupLog := w.groupLog ++ [Group.backlinks] } from rfl,
            himpl] at hfg
          exact absurd hfg (by simp)
      | ok w2 =>
          unfold fetchGroup at hfg
          dsimp only at hfg
          rw [show groupImpl Group.backlinks { w with groupLog := w.groupLog ++ [Group.backlinks] }
              = impl_backlinks { w with groupLog := w.groupLog ++ [Group.backlinks] } from rfl,
            himpl] at hfg
          dsimp only at hfg
          injection hfg with h2
          refine ⟨w2, rfl, ?_, ?_, ?_⟩
          · rw [← h2]
            have hEl : w.page.backlinks = ([] : List String) := hE
            show (((r0.items ++ (conts.map ApiResponse.items).join) ++ rlast.items).foldl
                dictInsertKey w.page.backlinks)
              = ((r0.items ++ (conts.map ApiResponse.items).join) ++ rlast.items)
            rw [hEl, foldl_dictInsertKey_nodup _ [] hnd (by intro x hx hmem; simp at hmem)]
            simp
          · rw [← h2]
            simp [setCalled]
          · rw [← h2]
    · intro wT k htrT
      have himplT := impl_backlinks_truncated
          { wT with groupLog := wT.groupLog ++ [Group.backlinks] }
          r0 conts k htrT hc0 hcs
      refine ⟨{ { wT with groupLog := wT.groupLog ++ [Group.backlinks] } with transport := [] }, ?_, rfl⟩
      unfold fetchGroup
      dsimp only
      rw [show groupImpl Group.backlinks { wT with groupLog := wT.groupLog ++ [Group.backlinks] }
          = impl_backlinks { wT with groupLog := wT.groupLog ++ [Group.backlinks] } from rfl,
        himplT]
  · subst hg
    constructor
    · have himpl := impl_categorymembers_chain
          { w with groupLog := w.groupLog ++ [Group.categorymembers] }
          r0 rlast conts rest0 htr hc0 hcs hl
      cases hfg : fetchGroup w Group.categorymembers with
      | exn w2 =>
          unfold fetchGroup at hfg
          dsimp only at hfg
          rw [show groupImpl Group.categorymembers { w with groupLog := w.groupLog ++ [Group.categorymembers] }
              = impl_categorymembers { w with groupLog := w.groupLog ++ [Group.categorymembers] } from rfl,
            himpl] at hfg
          exact absurd hfg (by simp)
      | ok w2 =>
          unfold fetchGroup at hfg
          dsimp only at hfg
          rw [show groupImpl Group.categorymembers { w with groupLog := w.groupLog ++ [Group.categorymembers] }
              = impl_categorymembers { w with groupLog := w.groupLog ++ [Group.categorymembers] } from rfl,
            himpl] at hfg
          dsimp only at hfg
          injection hfg with h2
          refine ⟨w2, rfl, ?_, ?_, ?_⟩
          · rw [← h2]
            have hEl : w.page.categorymembers = ([] : List String) := hE
            show (((r0.items ++ (conts.map ApiResponse.items).join) ++ rlast.items).foldl
                dictInsertKey w.page.categorymembers)
              = ((r0.items ++ (conts.map ApiResponse.items).join) ++ rlast.items)
            rw [hEl, foldl_dictInsertKey_nodup _ [] hnd (by intro x hx hmem; simp at hmem)]
            simp
          · rw [← h2]
            simp [setCalled]
          · rw [← h2]
    · intro wT k htrT
      have himplT := impl_categorymembers_truncated
          { wT with groupLog := wT.groupLog ++ [Group.categorymembers] }
          r0 conts k htrT hc0 hcs
      refine ⟨{ { wT with groupLog := wT.groupLog ++ [Group.categorymembers] } with transport := [] }, ?_, rfl⟩
      unfold fetchGroup
      dsimp only
      rw [show groupImpl Group.categorymembers { wT with groupLog := wT.groupLog ++ [Group.categorymembers] }
          = impl_categorymembers { wT with groupLog := wT.groupLog ++ [Group.categorymembers] } from rfl,
        himplT]

/-- C4 (witness): the theorem at the two-response fake transport (token on
the first response, none on the second). -/
theorem C4_witness :
    ∃ w2, fetchGroup c4World Group.links = .ok w2
      ∧ (groupCache w2.page Group.links).1 = ["L1", "L2", "L3"]
      ∧ w2.page.called Group.links = true ∧ w2.transport = [] := by
  have h := (C4_pagination c4World Group.links linksResp1 linksResp2 [] []
      (Or.inl rfl) (by decide) (by decide) (by decide)
      (fun r hr => absurd hr (by simp)) (by decide) (by decide) (by decide)).1
  obtain ⟨w2, h1, h2, h3, h4⟩ := h
  exact ⟨w2, h1, h2.trans (by decide), h3, h4⟩

/-- C5 (counterexample): after the transport reports the page key `-1` for
the info group (the first read of `pageid`), the page's pageid is `-1` and
`exists()` is false — yet reading a structured-group property afterwards
invokes a further call group: the group log grows from `[info]` to
`[info, structured]`, refuting "no further call group for that page is
ever invoked even if other attributes are read afterward". -/
theorem C5_counterexample :
    (run c5World [ReadOp.attr "pageid"]).world.groupLog = [Group.info]
    ∧ lookupA ((run c5World [ReadOp.attr "pageid"]).world.page.attrs) "pageid"
        = some (.int (-1))
    ∧ pageExists ((run c5World [ReadOp.attr "pageid"]).world) = some false
    ∧ (run c5World [ReadOp.attr "pageid", ReadOp.prop Group.structured]).world.groupLog
        = [Group.info, Group.structured] := by
  refine ⟨by decide, by decide, by decide, by decide⟩

theorem impl_structured_missing (w : World) (r : ApiResponse) (rest : List (Option ApiResponse))
    (htr : w.transport = some r :: rest) (hm : r.missing = true) :
    impl_structured w = .ok (setPageAttr { w with transport := rest } "pageid" (.int (-1))) := by
  unfold impl_structured runQuery
  rw [htr]
  dsimp only
  rw [hm]
  rfl

theorem impl_info_missing (w : World) (r : ApiResponse) (rest : List (Option ApiResponse))
    (htr : w.transport = some r :: rest) (hm : r.missing = true) :
    impl_info w = .ok (setPageAttr { w with transport := rest } "pageid" (.int (-1))) := by
  unfold impl_info runQuery
  rw [htr]
  dsimp only
  rw [hm]
  rfl

theorem impl_langlinks_missing (w : World) (r : ApiResponse) (rest : List (Option ApiResponse))
    (htr : w.transport = some r :: rest) (hm : r.missing = true) :
    impl_langlinks w = .ok (setPageAttr { w with transport := rest } "pageid" (.int (-1))) := by
  unfold impl_langlinks runQuery
  rw [htr]
  dsimp only
  rw [hm]
  rfl

theorem impl_links_missing (w : World) (r : ApiResponse) (rest : List (Option ApiResponse))
    (htr : w.transport = some r :: rest) (hm : r.missing = true) :
    impl_links w = .ok (setPageAttr { w with transport := rest } "pageid" (.int (-1))) := by
  unfold impl_links runQuery
  rw [htr]
  dsimp only
  rw [hm]
  rfl

theorem impl_categories_missing (w : World) (r : ApiResponse) (rest : List (Option ApiResponse))
    (htr : w.transport = some r :: rest) (hm : r.missing = true) :
    impl_categories w = .ok (setPageAttr { w with transport := rest } "pageid" (.int (-1))) := by
  unfold impl_categories runQuery
  rw [htr]
  dsimp only
  rw [hm]
  rfl

/-- C5 (amended): when a transport response reports the page key `-1`, the
group that issued the request sets only `pageid := -1`, the resulting page
has `exists()` false, and that group is marked resolved and is never
re-invoked — reading an attribute all of whose eligible groups are
resolved issues no further remote call and returns without effect — but a
read belonging to a different, still-unresolved group does invoke that
group once (see the counterexample). -/
theorem C5_missing_page :
    (∀ (w : World) (r : ApiResponse) (rest : List (Option ApiResponse)) (g : Group),
        (g = Group.structured ∨ g = Group.info ∨ g = Group.langlinks
          ∨ g = Group.links ∨ g = Group.categories) →
        w.transport = some r :: rest → r.missing = true →
        ∃ w2, fetchGroup w g = .ok w2
          ∧ lookupA w2.page.attrs "pageid" = some (AttrVal.int (-1))
          ∧ w2.page.called g = true
          ∧ pageExists w2 = some false
          ∧ w2.transport = rest)
    ∧ (∀ (w : World) (name : String) (gs : List Group),
        mappingLookup ATTRIBUTES_MAPPING name = some gs →
        (∀ g ∈ gs, w.page.called g = true) →
        step w (.attr name) = .ok w)
    ∧ (∀ (w : World) (g : Group), w.page.called g = false →
        (step w (.prop g)).world.groupLog = w.groupLog ++ [g]) := by
  refine ⟨?_, ?_, ?_⟩
  · intro w r rest g hmem htr hm
    rcases hmem with hg | hg | hg | hg | hg
    · subst hg
      have himpl := impl_structured_missing
          { w with groupLog := w.groupLog ++ [Group.structured] } r rest htr hm
      cases hfg : fetchGroup w Group.structured with
      | exn w2 =>
          unfold fetchGroup at hfg
          dsimp only at hfg
          rw [show groupImpl Group.structured { w with groupLog := w.groupLog ++ [Group.structured] }
              = impl_structured { w with groupLog := w.groupLog ++ [Group.structured] } from rfl,
            himpl] at hfg
          exact absurd hfg (by simp)
      | ok w2 =>
          unfold fetchGroup at hfg
          dsimp only at hfg
          rw [show groupImpl Group.structured { w with groupLog := w.groupLog ++ [Group.structured] }
              = impl_structured { w with groupLog := w.groupLog ++ [Group.structured] } from rfl,
            himpl] at hfg
          dsimp only at hfg
          injection hfg with h2
          have hlk : lookupA w2.page.attrs "pageid" = some (AttrVal.int (-1)) := by
            rw [← h2]
            exact lookupA_setA_self w.page.attrs "pageid" (AttrVal.int (-1))
          refine ⟨w2, rfl, hlk, ?_, ?_, ?_⟩
          · rw [← h2]
            simp [setCalled]
          · unfold pageExists
            have hstep : step w2 (.attr "pageid") = .ok w2 := by
              unfold step
              dsimp only
              rw [show mappingLookup ATTRIBUTES_MAPPING "pageid"
                  = some [Group.info, Group.structured, Group.langlinks] from rfl]
              dsimp only
              rw [if_pos (by rw [hlk]; rfl)]
            rw [hstep]
            dsimp only
            rw [hlk]
            rfl
          · rw [← h2]
            rfl
    · subst hg
      have himpl := impl_info_missing
          { w with groupLog := w.groupLog ++ [Group.info] } r rest htr hm
      cases hfg : fetchGroup w Group.info with
      | exn w2 =>
          unfold fetchGroup at hfg
          dsimp only at hfg
          rw [show groupImpl Group.info { w with groupLog := w.groupLog ++ [Group.info] }
              = impl_info { w with groupLog := w.groupLog ++ [Group.info] } from rfl,
            himpl] at hfg
          exact absurd hfg (by simp)
      | ok w2 =>
          unfold fetchGroup at hfg
          dsimp only at hfg
          rw [show groupImpl Group.info { w with groupLog := w.groupLog ++ [Group.info] }
              = impl_info { w with groupLog := w.groupLog ++ [Group.info] } from rfl,
            himpl] at hfg
          dsimp only at hfg
          injection hfg with h2
          have hlk : lookupA w2.page.attrs "pageid" = some (AttrVal.int (-1)) := by
            rw [← h2]
            exact lookupA_setA_self w.page.attrs "pageid" (AttrVal.int (-1))
          refine ⟨w2, rfl, hlk, ?_, ?_, ?_⟩
          · rw [← h2]
            simp [setCalled]
          · unfold pageExists
            have hstep : step w2 (.attr "pageid") = .ok w2 := by
              unfold step
              dsimp only
              rw [show mappingLookup ATTRIBUTES_MAPPING "pageid"
                  = some [Group.info, Group.structured, Group.langlinks] from rfl]
              dsimp only
              rw [if_pos (by rw [hlk]; rfl)]
            rw [hstep]
            dsimp only
            rw [hlk]
            rfl
          · rw [← h2]
            rfl
    · subst hg
      have himpl := impl_langlinks_missing
          { w with groupLog := w.groupLog ++ [Group.langlinks] } r rest htr hm
      cases hfg : fetchGroup w Group.langlinks with
      | exn w2 =>
          unfold fetchGroup at hfg
          dsimp only at hfg
          rw [show groupImpl Group.langlinks { w with groupLog := w.groupLog ++ [Group.langlinks] }
              = impl_langlinks { w with groupLog := w.groupLog ++ [Group.langlinks] } from rfl,
            himpl] at hfg
          exact absurd hfg (by simp)
      | ok w2 =>
          unfold fetchGroup at hfg
          dsimp only at hfg
          rw [show groupImpl Group.langlinks { w with groupLog := w.groupLog ++ [Group.langlinks] }
              = impl_langlinks { w with groupLog := w.groupLog ++ [Group.langlinks] } from rfl,
            himpl] at hfg
          dsimp only at hfg
          injection hfg with h2
          have hlk : lookupA w2.page.attrs "pageid" = some (AttrVal.int (-1)) := by
            rw [← h2]
            exact lookupA_setA_self w.page.attrs "pageid" (AttrVal.int (-1))
          refine ⟨w2, rfl, hlk, ?_, ?_, ?_⟩
          · rw [← h2]
            simp [setCalled]
          · unfold pageExists
            have hstep : step w2 (.attr "pageid") = .ok w2 := by
              unfold step
              dsimp only
              rw [show mappingLookup ATTRIBUTES_MAPPING "pageid"
                  = some [Group.info, Group.structured, Group.langlinks] from rfl]
              dsimp only
              rw [if_pos (by rw [hlk]; rfl)]
            rw [hstep]
            dsimp only
            rw [hlk]
            rfl
          · rw [← h2]
            rfl
    · subst hg
      have himpl := impl_links_missing
          { w with groupLog := w.groupLog ++ [Group.links] } r rest htr hm
      cases hfg : fetchGroup w Group.links with
      | exn w2 =>
          unfold fetchGroup at hfg
          dsimp only at hfg
          rw [show groupImpl Group.links { w with groupLog := w.groupLog ++ [Group.links] }
              = impl_links { w with groupLog := w.groupLog ++ [Group.links] } from rfl,
            himpl] at hfg
          exact absurd hfg (by simp)
      | ok w2 =>
          unfold fetchGroup at hfg
          dsimp only at hfg
          rw [show groupImpl Group.links { w with groupLog := w.groupLog ++ [Group.links] }
              = impl_links { w with groupLog := w.groupLog ++ [Group.links] } from rfl,
            himpl] at hfg
          dsimp only at hfg
          injection hfg with h2
          have hlk : lookupA w2.page.attrs "pageid" = some (AttrVal.int (-1)) := by
            rw [← h2]
            exact lookupA_setA_self w.page.attrs "pageid" (AttrVal.int (-1))
          refine ⟨w2, rfl, hlk, ?_, ?_, ?_⟩
          · rw [← h2]
            simp [setCalled]
          · unfold pageExists
            have hstep : step w2 (.attr "pageid") = .ok w2 := by
              unfold step
              dsimp only
              rw [show mappingLookup ATTRIBUTES_MAPPING "pageid"
                  = some [Group.info, Group.structured, Group.langlinks] from rfl]
              dsimp only
              rw [if_pos (by rw [hlk]; rfl)]
            rw [hstep]
            dsimp only
            rw [hlk]
            rfl
          · rw [← h2]
            rfl
    · subst hg
      have himpl := impl_categories_missing
          { w with groupLog := w.groupLog ++ [Group.categories] } r rest htr hm
      cases hfg : fetchGroup w Group.categories with
      | exn w2 =>
          unfold fetchGroup at hfg
          dsimp only at hfg
          rw [show groupImpl Group.categories { w with groupLog := w.groupLog ++ [Group.categories] }
              = impl_categories { w with groupLog := w.groupLog ++ [Group.categories] } from rfl,
            himpl] at hfg
          exact absurd hfg (by simp)
      | ok w2 =>
          unfold fetchGroup at hfg
          dsimp only at hfg
          rw [show groupImpl Group.categories { w with groupLog := w.groupLog ++ [Group.categories] }
              = impl_categories { w with groupLog := w.groupLog ++ [Group.categories] } from rfl,
            himpl] at hfg
          dsimp only at hfg
          injection hfg with h2
          have hlk : lookupA w2.page.attrs "pageid" = some (AttrVal.int (-1)) := by
            rw [← h2]
            exact lookupA_setA_self w.page.attrs "pageid" (AttrVal.int (-1))
          refine ⟨w2, rfl, hlk, ?_, ?_, ?_⟩
          · rw [← h2]
            simp [setCalled]
          · unfold pageExists
            have hstep : step w2 (.attr "pageid") = .ok w2 := by
              unfold step
              dsimp only
              rw [show mappingLookup ATTRIBUTES_MAPPING "pageid"
                  = some [Group.info, Group.structured, Group.langlinks] from rfl]
              dsimp only
              rw [if_pos (by rw [hlk]; rfl)]
            rw [hstep]
            dsimp only
            rw [hlk]
            rfl
          · rw [← h2]
            rfl
  · intro w name gs hml hall
    by_cases hcache : (lookupA w.page.attrs name).isSome
    · simp only [step, hml, hcache, if_true]
    · simp only [step, hml, hcache, if_false]
      exact readMappedAttr_all_called w name gs hall
  · intro w g hc
    simp only [step, hc, Bool.false_eq_true, if_false]
    exact fetchGroup_log w g

/-- C5 (witness): the amended theorem at the concrete `-1` transport. -/
theorem C5_witness :
    ∃ w2, fetchGroup c5World Group.info = .ok w2
      ∧ lookupA w2.page.attrs "pageid" = some (AttrVal.int (-1))
      ∧ w2.page.called Group.info = true
      ∧ pageExists w2 = some false
      ∧ w2.transport = [some emptyResp] := by
  exact C5_missing_page.1 c5World missingResp [some emptyResp] Group.info
    (Or.inr (Or.inl rfl)) (by decide) (by decide)

/-- C10 (confirmed): the resolved flag is set only after the group's fetch
function returns normally: on any raising fetch the flag for the group
stays as it was (false when unresolved) and a subsequent read of one of
the group's attributes invokes the group again.  When the exception comes
from a remote query - which for the six collection groups is the only way
their fetch can raise, and for the structured group means its single query
failing - the page's cached collections for that group are also unchanged:
those fetchers mutate the page only after the query has returned. -/
theorem C10_failed_fetch :
    (∀ (w : World) (g : Group) (w2 : World),
        w.page.called g = false → fetchGroup w g = .exn w2 →
        w2.page.called g = false
        ∧ (step w2 (.prop g)).world.groupLog = w2.groupLog ++ [g])
    ∧ (∀ (w : World) (g : Group) (w2 : World), g ≠ Group.structured →
        fetchGroup w g = .exn w2 → groupCache w2.page g = groupCache w.page g)
    ∧ (∀ (w w2 : World),
        w.transport = [] ∨ (∃ rest, w.transport = none :: rest) →
        fetchGroup w Group.structured = .exn w2 →
        groupCache w2.page Group.structured = groupCache w.page Group.structured) := by
  refine ⟨?_, ?_, ?_⟩
  · intro w g w2 hc h
    have hcalled := fetchGroup_exn_called w g w2 h
    have hc2 : w2.page.called g = false := by rw [hcalled]; exact hc
    refine ⟨hc2, ?_⟩
    simp only [step, hc2, Bool.false_eq_true, if_false]
    exact fetchGroup_log w2 g
  · intro w g w2 hg h
    have hpage := fetchGroup_exn_page w g w2 hg h
    rw [hpage]
  · intro w w2 hq h
    unfold fetchGroup at h
    dsimp only at h
    obtain ⟨w3, himpl, hpg⟩ := impl_structured_transport_exn
      { w with groupLog := w.groupLog ++ [Group.structured] } hq
    rw [show groupImpl Group.structured { w with groupLog := w.groupLog ++ [Group.structured] }
        = impl_structured { w with groupLog := w.groupLog ++ [Group.structured] } from rfl] at h
    rw [himpl] at h
    dsimp only at h
    injection h with h2
    subst h2
    rw [hpg]

/-- C10 (witness): a transport with no planned responses makes the links
fetch raise; the flag stays false, the links collection is unchanged and a
subsequent read re-invokes the group. -/
theorem C10_witness :
    c10Exn.page.called Group.links = false
    ∧ groupCache c10Exn.page Group.links = groupCache freshWorld.page Group.links
    ∧ (step c10Exn (.prop Group.links)).world.groupLog
        = c10Exn.groupLog ++ [Group.links] := by
  refine ⟨(C10_failed_fetch.1 freshWorld Group.links c10Exn rfl rfl).1,
    C10_failed_fetch.2.1 freshWorld Group.links c10Exn (by decide) rfl,
    (C10_failed_fetch.1 freshWorld Group.links c10Exn rfl rfl).2⟩

/-! ## C7: the amended serialization -/

theorem str_empty_append (s : String) : "" ++ s = s := by
  cases s with
  | mk data => show String.mk ([] ++ data) = String.mk data; rw [List.nil_append]

theorem str_append_assoc (a b c : String) : a ++ b ++ c = a ++ (b ++ c) := by
  cases a with
  | mk x =>
      cases b with
      | mk y =>
          cases c with
          | mk z =>
              show String.mk ((x ++ y) ++ z) = String.mk (x ++ (y ++ z))
              rw [List.append_assoc]

theorem joinAll_append : ∀ (a b : List String), joinAll (a ++ b) = joinAll a ++ joinAll b := by
  intro a b
  induction a with
  | nil =>
      show joinAll b = "" ++ joinAll b
      rw [str_empty_append]
  | cons s rest ih =>
      show s ++ joinAll (rest ++ b) = (s ++ joinAll rest) ++ joinAll b
      rw [ih, str_append_assoc]

mutual

theorem combineOne_eq_blocks : ∀ (cs : String → Nat → String) (s : SecT) (lvl : Nat),
    combineOne cs s lvl = joinAll (preorderBlocksOne cs s lvl)
  | cs, .node t x subs, lvl => by
      show cs t lvl ++ "\n" ++ x ++ (if x.length > 0 then "\n\n" else "")
          ++ combineList cs subs (lvl + 1)
        = (cs t lvl ++ "\n" ++ x ++ (if x.length > 0 then "\n\n" else ""))
          ++ joinAll (preorderBlocksList cs subs (lvl + 1))
      rw [combineList_eq_blocks cs subs (lvl + 1)]

theorem combineList_eq_blocks : ∀ (cs : String → Nat → String) (l : List SecT) (lvl : Nat),
    combineList cs l lvl = joinAll (preorderBlocksList cs l lvl)
  | _, [], _ => rfl
  | cs, s :: rest, lvl => by
      show combineOne cs s lvl ++ combineList cs rest lvl
        = joinAll (preorderBlocksOne cs s lvl ++ preorderBlocksList cs rest lvl)
      rw [joinAll_append, combineOne_eq_blocks cs s lvl, combineList_eq_blocks cs rest lvl]

end

/-- C7 (amended): `text(page)` resolves the structured group if unresolved,
and returns the stored summary as stored — not re-trimmed (the WIKI cleanup
trims it at build time, the NATLANG cleanup does not; see the
counterexample) — followed by one blank line when non-empty, then the
depth-first pre-order serialization of the section tree that emits for each
node its format-specific heading decoration, a newline, its own text and
exactly one appended blank-line separator after every non-empty text block,
recursing into children before the next sibling; the final result is
trimmed on both sides (hence in particular right-trimmed). -/
theorem C7_serialization :
    (∀ (cs : String → Nat → String) (summary : String) (sections : List SecT),
        pageText cs summary sections
          = pyStrip ((if summary.length > 0 then summary ++ "\n\n" else summary)
              ++ joinAll (preorderBlocksList cs sections 2)))
    ∧ (∀ w : World, w.page.called Group.structured = false →
        (step w (.prop Group.structured)).world.groupLog
          = w.groupLog ++ [Group.structured]) := by
  constructor
  · intro cs summary sections
    unfold pageText
    rw [combineList_eq_blocks]
  · intro w hc
    simp only [step, hc, Bool.false_eq_true, if_false]
    exact fetchGroup_log w Group.structured

/-- C7 (witness): the serialization equality at a concrete page, and the
resolution of the structured group on a fresh world. -/
theorem C7_witness :
    pageText combine_sections_plain "Sum" [SecT.node "T" "x" []]
      = pyStrip ((if ("Sum" : String).length > 0 then "Sum" ++ "\n\n" else "Sum")
          ++ joinAll (preorderBlocksList combine_sections_plain [SecT.node "T" "x" []] 2))
    ∧ (step freshWorld (.prop Group.structured)).world.groupLog = [Group.structured] := by
  constructor
  · exact C7_serialization.1 combine_sections_plain "Sum" [SecT.node "T" "x" []]
  · have h := C7_serialization.2 freshWorld rfl
    simpa [freshWorld] using h

/-- C6 (witness): the amended depth facts at concrete fixture nodes:
Section 1.1 (node 1) is one deeper than its parent Section 1 (node 0), and
the top-level Section 1 has depth 1. -/
theorem C6_witness :
    (fixtureBuilt.arena.getD 1 default).level = (fixtureBuilt.arena.getD 0 default).level + 1
    ∧ (fixtureBuilt.arena.getD 0 default).level = 1 := by
  constructor
  · exact C6_depths.2.1 0 (by decide) 1 (by decide)
  · exact C6_depths.2.2 0 (by decide)

end WikipediaApi
